import Mathlib

/-!
Shallow embedding of the `diffparser` Go package (waigani/diffparser,
file `diffparser.go`) and proofs about it.

Go strings are modelled as byte lists (`GoStr := List Nat`), since the Go
code slices strings at byte granularity (`line[:1]`, `line[:3]`, `l[1:]`)
and `strconv.Unquote` decodes octal escapes into raw bytes.  Go `int`
values are modelled as `Int` normalised through 64-bit two's-complement
wraparound (`wrap64`) wherever the code performs arithmetic, so that
counter overflow behaves as in Go.  The `nil` `*DiffFile` pointer is
modelled as `Option DiffFile`; dereferencing `none` yields the `crash`
outcome (a Go runtime panic, distinct from a returned error).
-/

namespace Diffparser

/-- Go strings as byte lists. -/
abbrev GoStr := List Nat

/-- UTF-8 encoding of one Unicode code point, as Go's `utf8.AppendRune`. -/
def utf8Bytes (n : Nat) : List Nat :=
  if n < 0x80 then [n]
  else if n < 0x800 then [0xC0 + n / 64, 0x80 + n % 64]
  else if n < 0x10000 then [0xE0 + n / 4096, 0x80 + (n / 64) % 64, 0x80 + n % 64]
  else [0xF0 + n / 262144, 0x80 + (n / 4096) % 64, 0x80 + (n / 64) % 64, 0x80 + n % 64]

/-- Concatenated map over a list (used to keep definitions kernel-reducible). -/
def catMap (f : α → List β) : List α → List β
  | [] => []
  | a :: r => f a ++ catMap f r

/-- Encode a Lean string literal as a Go byte string. -/
def gs (s : String) : GoStr := catMap (fun c => utf8Bytes c.toNat) s.data

/-- `strings.HasPrefix` on byte strings. -/
def bytesHasPre : GoStr → GoStr → Bool
  | [], _ => true
  | _ :: _, [] => false
  | p :: ps, c :: cs => p == c && bytesHasPre ps cs

/-- `strings.HasSuffix` on byte strings. -/
def bytesHasSuf (suf s : GoStr) : Bool :=
  suf.length ≤ s.length && s.drop (s.length - suf.length) == suf

/-- `strings.TrimSuffix` on byte strings. -/
def trimSufB (suf s : GoStr) : GoStr :=
  if bytesHasSuf suf s then s.take (s.length - suf.length) else s

/-- Index of the first occurrence of `sep` in `s` (as `strings.Index`). -/
def subIndex (sep : GoStr) : GoStr → Option Nat
  | [] => if sep = [] then some 0 else none
  | c :: r =>
    if bytesHasPre sep (c :: r) then some 0
    else (subIndex sep r).map (· + 1)

/-- Worker for `splitSub`, with fuel to keep the recursion structural. -/
def splitSubAux (sep : GoStr) : Nat → GoStr → List GoStr
  | 0, s => [s]
  | fuel + 1, s =>
    match subIndex sep s with
    | none => [s]
    | some i => s.take i :: splitSubAux sep fuel (s.drop (i + sep.length))

/-- `strings.Split` on byte strings, for a non-empty separator (the only use
in the source is the separator `" and "`). -/
def splitSub (sep s : GoStr) : List GoStr := splitSubAux sep (s.length + 1) s

/-- `strings.Split(s, "\n")`: cut a byte string at every newline byte. -/
def splitNl : GoStr → List GoStr
  | [] => [[]]
  | 10 :: r => [] :: splitNl r
  | c :: r =>
    match splitNl r with
    | [] => [[c]]
    | g :: gsr => (c :: g) :: gsr

/-! ### Go integer model -/

/-- Largest `int64` value. -/
def maxI64 : Int := 9223372036854775807

/-- Smallest `int64` value. -/
def minI64 : Int := -9223372036854775808

/-- Normalise an integer into two's-complement `int64` range, as Go's
wraparound arithmetic does. -/
def wrap64 (x : Int) : Int := (x + 2 ^ 63) % 2 ^ 64 - 2 ^ 63

/-- Is this byte an ASCII decimal digit (regexp `\d`)? -/
def isDigitB (c : Nat) : Bool := 48 ≤ c && c ≤ 57

/-- Numeric value of a decimal digit string. -/
def digitsVal (ds : List Nat) : Nat := ds.foldl (fun acc d => acc * 10 + (d - 48)) 0

/-- Are all bytes decimal digits? -/
def allDigits (ds : List Nat) : Bool := ds.all isDigitB

/-- `strconv.Atoi` on the strings fed to it by the hunk-header parser
(matches of `\d+`, possibly empty when a group did not participate):
`none` models a returned error (empty input, non-digit, or `int64`
overflow, where Go reports `ErrRange`). -/
def goAtoi (s : GoStr) : Option Int :=
  if s ≠ [] ∧ allDigits s then
    if (digitsVal s : Int) ≤ maxI64 then some (digitsVal s) else none
  else none

/-- The magnitude part of `strconv.Atoi`'s returned value (sign applied by
`goAtoiVal`): 0 on a syntax error, clamped on overflow, as `strconv.ParseInt`
returns. -/
def atoiMag (t : List Nat) (sign : Int) : Int :=
  if t ≠ [] ∧ allDigits t then
    if sign = 1 then
      if (digitsVal t : Int) > maxI64 then maxI64 else (digitsVal t : Int)
    else
      if (digitsVal t : Int) > 2 ^ 63 then minI64 else -(digitsVal t : Int)
  else 0

/-- The value `strconv.Atoi` returns when its error is discarded, as in the
`similarity index` case (`file.SimilarityIndex, _ = strconv.Atoi(...)`). -/
def goAtoiVal (s : GoStr) : Int :=
  match s with
  | 43 :: t => atoiMag t 1
  | 45 :: t => atoiMag t (-1)
  | t => atoiMag t 1

/-! ### The regular expressions of the source

`reinReg = ^index .+$`, `rempReg = ^(-|\+){3} .+$` and
`hunkHeaderReg = @@ \-(\d+),?(\d+)? \+(\d+),?(\d+)? @@ ?(.+)?`.
`.` matches any byte except newline; the first two patterns are anchored,
the hunk-header pattern is searched anywhere in the line
(`FindStringSubmatch`, leftmost-first semantics). -/

/-- `reinReg.MatchString`: the line is `index ` followed by at least one
non-newline byte. -/
def reinMatch (l : GoStr) : Bool :=
  bytesHasPre (gs "index ") l && l.drop 6 != [] && (l.drop 6).all (· != 10)

/-- `rempReg.MatchString`: three bytes each `-` or `+`, then a space, then
at least one non-newline byte. -/
def rempMatch : GoStr → Bool
  | c0 :: c1 :: c2 :: 32 :: rest =>
    (c0 == 45 || c0 == 43) && (c1 == 45 || c1 == 43) && (c2 == 45 || c2 == 43) &&
      rest != [] && rest.all (· != 10)
  | _ => false

/-- Attempt to match `hunkHeaderReg` starting at the head of `s`, returning
the five capture groups.  Backtracking never helps this pattern (a maximal
`\d+` run is always followed by a non-digit, and everything after the
closing `@@` is optional), so the match is computed directly. -/
def hunkMatchAt (s : GoStr) : Option (GoStr × GoStr × GoStr × GoStr × GoStr) :=
  match s with
  | 64 :: 64 :: 32 :: 45 :: r1 =>
    let p1 := r1.span isDigitB
    if p1.1 = [] then none else
    let p2 : GoStr × GoStr :=
      match p1.2 with
      | 44 :: r2' => (r2'.span isDigitB)
      | _ => ([], p1.2)
    match p2.2 with
    | 32 :: 43 :: r4 =>
      let p3 := r4.span isDigitB
      if p3.1 = [] then none else
      let p4 : GoStr × GoStr :=
        match p3.2 with
        | 44 :: r5' => (r5'.span isDigitB)
        | _ => ([], p3.2)
      match p4.2 with
      | 32 :: 64 :: 64 :: r7 =>
        let r8 : GoStr := match r7 with | 32 :: t => t | _ => r7
        some (p1.1, p2.1, p3.1, p4.1, r8.takeWhile (· != 10))
      | _ => none
    | _ => none
  | _ => none

/-- `hunkHeaderReg.FindStringSubmatch`: leftmost match of the pattern. -/
def findHunk : GoStr → Option (GoStr × GoStr × GoStr × GoStr × GoStr)
  | [] => none
  | c :: rest =>
    match hunkMatchAt (c :: rest) with
    | some m => some m
    | none => findHunk rest

/-! ### `strconv.Unquote` model (for `decodeOctalString`) -/

/-- `utf8.DecodeRuneInString`: decode one code point, returning the rune and
the number of bytes consumed (`0xFFFD` with size 1 on invalid input). -/
def decodeRune : List Nat → Nat × Nat
  | [] => (0xFFFD, 0)
  | b0 :: rest =>
    if b0 < 0x80 then (b0, 1)
    else if b0 < 0xC2 then (0xFFFD, 1)
    else if b0 < 0xE0 then
      match rest with
      | b1 :: _ =>
        if 0x80 ≤ b1 && b1 ≤ 0xBF then ((b0 - 0xC0) * 64 + (b1 - 0x80), 2)
        else (0xFFFD, 1)
      | _ => (0xFFFD, 1)
    else if b0 < 0xF0 then
      match rest with
      | b1 :: b2 :: _ =>
        let lo1 : Nat := if b0 = 0xE0 then 0xA0 else 0x80
        let hi1 : Nat := if b0 = 0xED then 0x9F else 0xBF
        if lo1 ≤ b1 && b1 ≤ hi1 && 0x80 ≤ b2 && b2 ≤ 0xBF then
          ((b0 - 0xE0) * 4096 + (b1 - 0x80) * 64 + (b2 - 0x80), 3)
        else (0xFFFD, 1)
      | _ => (0xFFFD, 1)
    else if b0 < 0xF5 then
      match rest with
      | b1 :: b2 :: b3 :: _ =>
        let lo1 : Nat := if b0 = 0xF0 then 0x90 else 0x80
        let hi1 : Nat := if b0 = 0xF4 then 0x8F else 0xBF
        if lo1 ≤ b1 && b1 ≤ hi1 && 0x80 ≤ b2 && b2 ≤ 0xBF && 0x80 ≤ b3 && b3 ≤ 0xBF then
          ((b0 - 0xF0) * 262144 + (b1 - 0x80) * 4096 + (b2 - 0x80) * 64 + (b3 - 0x80), 4)
        else (0xFFFD, 1)
      | _ => (0xFFFD, 1)
    else (0xFFFD, 1)

/-- `utf8.ValidString`, with fuel to keep the recursion structural. -/
def validUtf8Aux : Nat → List Nat → Bool
  | 0, s => s.isEmpty
  | _ + 1, [] => true
  | fuel + 1, b :: rest =>
    if b < 0x80 then validUtf8Aux fuel rest
    else
      let rs := decodeRune (b :: rest)
      if rs.2 == 1 then false
      else validUtf8Aux fuel ((b :: rest).drop rs.2)

/-- `utf8.ValidString` on byte strings. -/
def validUtf8 (s : List Nat) : Bool := validUtf8Aux (s.length + 1) s

/-- Hexadecimal value of a byte, if it is a hex digit (`strconv`'s `unhex`). -/
def unhex (c : Nat) : Option Nat :=
  if 48 ≤ c && c ≤ 57 then some (c - 48)
  else if 97 ≤ c && c ≤ 102 then some (c - 97 + 10)
  else if 65 ≤ c && c ≤ 70 then some (c - 65 + 10)
  else none

/-- Fold a list of hex digits into a value, failing on a non-digit. -/
def unhexList (cs : List Nat) : Option Nat :=
  cs.foldl (fun acc c => acc.bind (fun v => (unhex c).map (fun x => v * 16 + x))) (some 0)

/-- Is a code point a valid rune (`utf8.ValidRune`): not a surrogate and at
most `U+10FFFF`? -/
def validRune (v : Nat) : Bool := !(0xD800 ≤ v && v < 0xE000) && v ≤ 0x10FFFF

/-- `strconv.UnquoteChar` with quote byte `"`: consume one (possibly escaped)
character, returning the bytes it contributes and the remaining input;
`none` models a returned error. -/
def unquoteChar : List Nat → Option (List Nat × List Nat)
  | [] => none
  | c :: rest =>
    if c = 34 then none
    else if 0x80 ≤ c then
      let rs := decodeRune (c :: rest)
      some (utf8Bytes rs.1, (c :: rest).drop rs.2)
    else if c ≠ 92 then some ([c], rest)
    else
      match rest with
      | [] => none
      | e :: r2 =>
        if e = 97 then some ([7], r2)
        else if e = 98 then some ([8], r2)
        else if e = 102 then some ([12], r2)
        else if e = 110 then some ([10], r2)
        else if e = 114 then some ([13], r2)
        else if e = 116 then some ([9], r2)
        else if e = 118 then some ([11], r2)
        else if e = 120 then
          match r2 with
          | h1 :: h2 :: r3 =>
            match unhex h1, unhex h2 with
            | some x1, some x2 => some ([16 * x1 + x2], r3)
            | _, _ => none
          | _ => none
        else if e = 117 then
          match r2 with
          | h1 :: h2 :: h3 :: h4 :: r3 =>
            match unhexList [h1, h2, h3, h4] with
            | some v => if validRune v then some (utf8Bytes v, r3) else none
            | none => none
          | _ => none
        else if e = 85 then
          match r2 with
          | h1 :: h2 :: h3 :: h4 :: h5 :: h6 :: h7 :: h8 :: r3 =>
            match unhexList [h1, h2, h3, h4, h5, h6, h7, h8] with
            | some v => if validRune v then some (utf8Bytes v, r3) else none
            | none => none
          | _ => none
        else if 48 ≤ e ∧ e ≤ 55 then
          match r2 with
          | d2 :: d3 :: r3 =>
            if 48 ≤ d2 && d2 ≤ 55 && 48 ≤ d3 && d3 ≤ 55 then
              let v := (e - 48) * 64 + (d2 - 48) * 8 + (d3 - 48)
              if v ≤ 255 then some ([v], r3) else none
            else none
          | _ => none
        else if e = 92 then some ([92], r2)
        else if e = 34 then some ([34], r2)
        else none

/-- The character loop of `strconv.unquote` for a double-quoted string:
consume characters until the terminating quote, which must end the input. -/
def unqLoop : Nat → List Nat → Option (List Nat)
  | 0, _ => none
  | fuel + 1, s =>
    match s with
    | [] => none
    | c :: rest =>
      if c = 34 then (if rest = [] then some [] else none)
      else if c = 10 then none
      else
        match unquoteChar (c :: rest) with
        | none => none
        | some (bs, rem) =>
          match unqLoop fuel rem with
          | none => none
          | some out => some (bs ++ out)

/-- `strconv.Unquote("\"" + s + "\"")`: `none` models a returned error.
The fast path returns the body verbatim when it contains no backslash,
newline or interior quote and is valid UTF-8; otherwise the character loop
runs (and a match terminating before the final quote leaves a non-empty
remainder, which `Unquote` rejects). -/
def goUnquoteD (s : GoStr) : Option GoStr :=
  let withEnd := s ++ [34]
  let pre := withEnd.takeWhile (· != 34)
  if !pre.contains 92 && !pre.contains 10 && validUtf8 pre then
    if pre.length = s.length then some pre else none
  else unqLoop (withEnd.length + 1) withEnd

/-- `decodeOctalString`: unquote, falling back to the original string when
unquoting fails. -/
def decodeOctalString (s : GoStr) : GoStr :=
  match goUnquoteD s with
  | none => s
  | some s2 => s2

/-- `parseFileName`: strip `a/`/`b/` and surrounding quotes, decoding octal
escapes inside quoted names. -/
def parseFileName (s : GoStr) : GoStr :=
  if bytesHasPre (gs "a/") s then s.drop 2
  else if bytesHasPre (gs "b/") s then s.drop 2
  else if bytesHasPre [34] s then
    let t := trimSufB [34] (s.drop 1)
    if bytesHasPre (gs "a/") t then decodeOctalString (t.drop 2)
    else if bytesHasPre (gs "b/") t then decodeOctalString (t.drop 2)
    else decodeOctalString t
  else s

/-! ### Data model -/

/-- `FileMode`: deleted, modified, new, renamed (iota order). -/
inductive FileMode where
  | deleted
  | modified
  | new
  | renamed
deriving DecidableEq, Repr

/-- `DiffLineMode`: added, removed, unchanged (iota order). -/
inductive DiffLineMode where
  | added
  | removed
  | unchanged
deriving DecidableEq, Repr

/-- `DiffLine`. -/
structure DiffLine where
  mode : DiffLineMode
  number : Int
  content : GoStr
  position : Int
deriving DecidableEq, Repr

/-- `DiffRange`. -/
structure DiffRange where
  start : Int
  length : Int
  lines : List DiffLine
deriving DecidableEq, Repr

/-- `DiffHunk`. -/
structure DiffHunk where
  hunkHeader : GoStr
  origRange : DiffRange
  newRange : DiffRange
  wholeRange : DiffRange
deriving DecidableEq, Repr

/-- `DiffFile`. -/
structure DiffFile where
  diffHeader : GoStr
  mode : FileMode
  origName : GoStr
  newName : GoStr
  hunks : List DiffHunk
  similarityIndex : Int
deriving DecidableEq, Repr

/-- `Diff` (the `PullID` database field is omitted; it never changes). -/
structure Diff where
  files : List DiffFile
  raw : GoStr
deriving DecidableEq, Repr

/-- Outcome of running Go code: a value, a returned error, or a runtime
panic (nil-pointer dereference). -/
inductive PResult (α : Type) where
  | ok : α → PResult α
  | err : GoStr → PResult α
  | crash : PResult α
deriving DecidableEq, Repr

/-- Did the computation return a value? -/
def PResult.isOk : PResult α → Bool
  | .ok _ => true
  | _ => false

/-- The state threaded through `Parse`'s line loop.  `cur` is the `file`
pointer (always the last element of `diff.Files` once set); its `hunks`
field is kept most-recent-first while the file is open, because the `hunk`
pointer always designates the file's last-appended hunk, and is reversed
when the file is closed. -/
structure ParseState where
  done : List DiffFile
  cur : Option DiffFile
  addedCount : Int
  removedCount : Int
  inHunk : Bool
  diffPosCount : Int
  firstHunkInFile : Bool
deriving DecidableEq, Repr

/-- Close the current file: restore its hunks to append order. -/
def closeCur : Option DiffFile → List DiffFile
  | none => []
  | some f => [{ f with hunks := f.hunks.reverse }]

/-- The `file := &DiffFile{}` of the `diff ` case, after `file.DiffHeader`
and `file.Mode = FileModeModified` are assigned. -/
def freshFile (hdr : GoStr) : DiffFile :=
  { diffHeader := hdr, mode := .modified, origName := [], newName := [],
    hunks := [], similarityIndex := 0 }

/-- The header-block computation of the `diff ` case: the `diff` line
itself, plus a following `index` line and `---`/`+++` pair when they
match (`lines[idx+1..idx+3]` lookahead). -/
def diffHeaderOf (l : GoStr) (rest : List GoStr) : GoStr :=
  if 3 ≤ rest.length then
    let index := rest.headD []
    let h1 := if reinMatch index then l ++ 10 :: index else l
    let mp1 := (rest.drop 1).headD []
    let mp2 := (rest.drop 2).headD []
    if rempMatch mp1 && rempMatch mp2 then h1 ++ 10 :: mp1 ++ 10 :: mp2 else h1
  else l

/-- A freshly created hunk, with the parsed ranges and the zero-valued
`WholeRange`. -/
def mkHunk (hh : GoStr) (a b c d : Int) : DiffHunk :=
  { hunkHeader := hh,
    origRange := { start := a, length := b, lines := [] },
    newRange := { start := c, length := d, lines := [] },
    wholeRange := { start := 0, length := 0, lines := [] } }

/-- Append an added line to the hunk's new range and whole range. -/
def hunkAddNew (h : DiffHunk) (nl : DiffLine) : DiffHunk :=
  { h with newRange := { h.newRange with lines := h.newRange.lines ++ [nl] },
           wholeRange := { h.wholeRange with lines := h.wholeRange.lines ++ [nl] } }

/-- Append a removed line to the hunk's orig range and whole range. -/
def hunkAddOrig (h : DiffHunk) (ol : DiffLine) : DiffHunk :=
  { h with origRange := { h.origRange with lines := h.origRange.lines ++ [ol] },
           wholeRange := { h.wholeRange with lines := h.wholeRange.lines ++ [ol] } }

/-- Append an unchanged line: the new-numbered copy to the new range and
whole range, the orig-numbered copy to the orig range. -/
def hunkAddBoth (h : DiffHunk) (nl ol : DiffLine) : DiffHunk :=
  { h with newRange := { h.newRange with lines := h.newRange.lines ++ [nl] },
           origRange := { h.origRange with lines := h.origRange.lines ++ [ol] },
           wholeRange := { h.wholeRange with lines := h.wholeRange.lines ++ [nl] } }

/-- Zero-value initial state of `Parse`'s loop variables. -/
def initState : ParseState :=
  { done := [], cur := none, addedCount := 0, removedCount := 0,
    inHunk := false, diffPosCount := 0, firstHunkInFile := false }

/-- `lineMode`: classify a content line by its first byte; `none` models
the returned error (the callers guarantee a non-empty line). -/
def lineMode (l : GoStr) : Option DiffLineMode :=
  match l with
  | 32 :: _ => some .unchanged
  | 43 :: _ => some .added
  | 45 :: _ => some .removed
  | _ => none

/-- `isSourceLine`. -/
def isSourceLine (l : GoStr) : Bool :=
  if l = gs "\\ No newline at end of file" then false
  else if l.length = 0 then false
  else if 3 ≤ l.length ∧ (l.take 3 = gs "---" ∨ l.take 3 = gs "+++") then false
  else true

/-- One iteration of `Parse`'s `for idx, l := range lines` loop.  `rest`
holds the lines after `l` (for the `lines[idx+1..idx+3]` header lookahead).
The `crash` results are the nil-pointer dereferences Go would hit when a
header line precedes any `diff ` line; the `[]`-hunks `crash` inside the
content case is unreachable from `initState` (a true `inHunk` always
follows a `@@ ` line that appended a hunk to the current file). -/
def stepLine (l : GoStr) (rest : List GoStr) (st : ParseState) : PResult ParseState :=
  let dc := wrap64 (st.diffPosCount + 1)
  if bytesHasPre (gs "diff ") l then
    .ok { st with done := st.done ++ closeCur st.cur,
                  cur := some (freshFile (diffHeaderOf l rest)),
                  inHunk := false, diffPosCount := dc, firstHunkInFile := true }
  else if l = gs "+++ /dev/null" then
    match st.cur with
    | none => .crash
    | some f => .ok { st with cur := some { f with mode := .deleted }, diffPosCount := dc }
  else if l = gs "--- /dev/null" then
    match st.cur with
    | none => .crash
    | some f => .ok { st with cur := some { f with mode := .new }, diffPosCount := dc }
  else if bytesHasPre (gs "similarity index ") l then
    match st.cur with
    | none => .crash
    | some f =>
      let f' := { f with mode := FileMode.renamed,
                         similarityIndex := goAtoiVal (trimSufB (gs "%") (l.drop 17)) }
      .ok { st with cur := some f', diffPosCount := dc }
  else if bytesHasPre (gs "--- ") l then
    match st.cur with
    | none => .crash
    | some f =>
      let f' := { f with origName := parseFileName (l.drop 4) }
      .ok { st with cur := some f', diffPosCount := dc }
  else if bytesHasPre (gs "+++ ") l then
    match st.cur with
    | none => .crash
    | some f =>
      let f' := { f with newName := parseFileName (l.drop 4) }
      .ok { st with cur := some f', diffPosCount := dc }
  else if bytesHasPre (gs "rename from ") l then
    match st.cur with
    | none => .crash
    | some f =>
      let f' := { f with origName := parseFileName (l.drop 12) }
      .ok { st with cur := some f', diffPosCount := dc }
  else if bytesHasPre (gs "rename to ") l then
    match st.cur with
    | none => .crash
    | some f =>
      let f' := { f with newName := parseFileName (l.drop 10) }
      .ok { st with cur := some f', diffPosCount := dc }
  else if bytesHasPre (gs "Binary files ") l then
    match st.cur with
    | none => .crash
    | some f =>
      match splitSub (gs " and ") (trimSufB (gs " differ") (l.drop 13)) with
      | [x, y] =>
        let f' := { f with mode := FileMode.modified, origName := parseFileName x,
                           newName := parseFileName y }
        .ok { st with cur := some f', diffPosCount := dc }
      | _ => .err (gs "invalid binary diff")
  else if bytesHasPre (gs "@@ ") l then
    match st.cur with
    | none => .crash
    | some f =>
      let dc2 := if st.firstHunkInFile then 0 else dc
      match findHunk l with
      | none => .err (gs "Error parsing line: " ++ l)
      | some (m1, m2, m3, m4, m5) =>
        match goAtoi m1 with
        | none => .err (gs "strconv.Atoi: parsing: value out of range")
        | some a =>
          match (if m2.isEmpty then some a else goAtoi m2) with
          | none => .err (gs "strconv.Atoi: parsing: value out of range")
          | some b =>
            match goAtoi m3 with
            | none => .err (gs "strconv.Atoi: parsing: value out of range")
            | some c =>
              match (if m4.isEmpty then some c else goAtoi m4) with
              | none => .err (gs "strconv.Atoi: parsing: value out of range")
              | some d =>
                let hh : GoStr := if m5.isEmpty then [] else m5
                let f' := { f with hunks := mkHunk hh a b c d :: f.hunks }
                .ok { st with cur := some f',
                              inHunk := true, firstHunkInFile := false,
                              diffPosCount := dc2,
                              addedCount := c, removedCount := a }
  else if st.inHunk && isSourceLine l then
    match lineMode l with
    | none => .err (gs "could not parse line mode for line: \"" ++ l ++ [34])
    | some m =>
      match st.cur with
      | none => .crash
      | some f =>
        match f.hunks with
        | [] => .crash
        | h :: hs =>
          match m with
          | .added =>
            let nl : DiffLine :=
              { mode := m, number := st.addedCount, content := l.drop 1, position := dc }
            let f' := { f with hunks := hunkAddNew h nl :: hs }
            .ok { st with cur := some f',
                          addedCount := wrap64 (st.addedCount + 1), diffPosCount := dc }
          | .removed =>
            let ol : DiffLine :=
              { mode := m, number := st.removedCount, content := l.drop 1, position := dc }
            let f' := { f with hunks := hunkAddOrig h ol :: hs }
            .ok { st with cur := some f',
                          removedCount := wrap64 (st.removedCount + 1), diffPosCount := dc }
          | .unchanged =>
            let nl : DiffLine :=
              { mode := m, number := st.addedCount, content := l.drop 1, position := dc }
            let ol : DiffLine :=
              { mode := m, number := st.removedCount, content := l.drop 1, position := dc }
            let f' := { f with hunks := hunkAddBoth h nl ol :: hs }
            .ok { st with cur := some f',
                          addedCount := wrap64 (st.addedCount + 1),
                          removedCount := wrap64 (st.removedCount + 1), diffPosCount := dc }
  else .ok { st with diffPosCount := dc }

/-- Run the line loop over the remaining lines. -/
def parseLinesAux : List GoStr → ParseState → PResult ParseState
  | [], st => .ok st
  | l :: rest, st =>
    match stepLine l rest st with
    | .ok st' => parseLinesAux rest st'
    | .err e => .err e
    | .crash => .crash

/-- `Parse`. -/
def Parse (s : GoStr) : PResult Diff :=
  match parseLinesAux (splitNl s) initState with
  | .ok stf => .ok { files := stf.done ++ closeCur stf.cur, raw := s }
  | .err e => .err e
  | .crash => .crash

/-! ### `Changed` -/

/-- One `dFiles[k] = append(dFiles[k], v)` on the map, modelled as an
association list with unique keys. -/
def mapAppend (m : List (GoStr × List Int)) (k : GoStr) (v : Int) : List (GoStr × List Int) :=
  match m with
  | [] => [(k, [v])]
  | (k', vs) :: r => if k' = k then (k', vs ++ [v]) :: r else (k', vs) :: mapAppend r k v

/-- Map lookup (empty list for an absent key, as ranging over a nil slice). -/
def lookupC (m : List (GoStr × List Int)) (k : GoStr) : List Int :=
  match m with
  | [] => []
  | (k', vs) :: r => if k' = k then vs else lookupC r k

/-- The inner line loop of `Changed` (`for _, dl := range h.NewRange.Lines`). -/
def changedLineFold (name : GoStr) (m : List (GoStr × List Int)) (lines : List DiffLine) :
    List (GoStr × List Int) :=
  lines.foldl (fun m dl => if dl.mode = .added then mapAppend m name dl.number else m) m

/-- The hunk loop of `Changed` (`for _, h := range f.Hunks`). -/
def changedHunkFold (name : GoStr) (m : List (GoStr × List Int)) (hunks : List DiffHunk) :
    List (GoStr × List Int) :=
  hunks.foldl (fun m h => changedLineFold name m h.newRange.lines) m

/-- `Diff.Changed`. -/
def Changed (d : Diff) : List (GoStr × List Int) :=
  d.files.foldl (fun m f =>
    if f.mode = .deleted then m
    else changedHunkFold f.newName m f.hunks) []

/-! ### Small navigation helpers (used to state concrete instances) -/

/-- The files of a parse result (empty on error or crash). -/
def filesOf : PResult Diff → List DiffFile
  | .ok d => d.files
  | _ => []

/-- A placeholder `DiffHunk`. -/
def defHunk : DiffHunk :=
  { hunkHeader := [], origRange := { start := 0, length := 0, lines := [] },
    newRange := { start := 0, length := 0, lines := [] },
    wholeRange := { start := 0, length := 0, lines := [] } }

/-- A placeholder `DiffFile`. -/
def defFile : DiffFile :=
  { diffHeader := [], mode := .deleted, origName := [], newName := [],
    hunks := [], similarityIndex := 0 }

/-- File `i` of a parse result. -/
def fileAt (r : PResult Diff) (i : Nat) : DiffFile := (filesOf r).getD i defFile

/-- Hunk `j` of file `i` of a parse result. -/
def hunkAt (r : PResult Diff) (i j : Nat) : DiffHunk := (fileAt r i).hunks.getD j defHunk

/-- Final state of a prefix run of the line loop (`initState` on error). -/
def stateAfter (ls : List GoStr) : ParseState :=
  match parseLinesAux ls initState with
  | .ok st => st
  | _ => initState

/-- The parsed `Diff` of a successful result (an empty one otherwise). -/
def getOkD (r : PResult Diff) : Diff :=
  match r with
  | .ok d => d
  | _ => { files := [], raw := [] }

/-- The current file of a state (a placeholder when none is open). -/
def curOrDefault (st : ParseState) : DiffFile :=
  match st.cur with
  | some f => f
  | none => defFile

/-! ### The mode/name projection of the parse (used for the file-mode
invariants): which lines open files, how a file's section determines its
mode and names. -/

/-- Does this line open a new file entry? -/
def isDiffLine (l : GoStr) : Bool := bytesHasPre (gs "diff ") l

/-- The (mode, origName, newName) triple of a file. -/
def nmOf (f : DiffFile) : FileMode × GoStr × GoStr := (f.mode, f.origName, f.newName)

/-- The triple of a freshly opened file. -/
def nm0 : FileMode × GoStr × GoStr := (FileMode.modified, [], [])

/-- The effect of one non-`diff ` line on the current file's mode and
names, extracted from the corresponding cases of the line loop (lines
that reach no name/mode case leave the triple unchanged). -/
def nmStep (l : GoStr) (t : FileMode × GoStr × GoStr) : FileMode × GoStr × GoStr :=
  if l = gs "+++ /dev/null" then (FileMode.deleted, t.2.1, t.2.2)
  else if l = gs "--- /dev/null" then (FileMode.new, t.2.1, t.2.2)
  else if bytesHasPre (gs "similarity index ") l then (FileMode.renamed, t.2.1, t.2.2)
  else if bytesHasPre (gs "--- ") l then (t.1, parseFileName (l.drop 4), t.2.2)
  else if bytesHasPre (gs "+++ ") l then (t.1, t.2.1, parseFileName (l.drop 4))
  else if bytesHasPre (gs "rename from ") l then (t.1, parseFileName (l.drop 12), t.2.2)
  else if bytesHasPre (gs "rename to ") l then (t.1, t.2.1, parseFileName (l.drop 10))
  else if bytesHasPre (gs "Binary files ") l then
    match splitSub (gs " and ") (trimSufB (gs " differ") (l.drop 13)) with
    | [x, y] => (FileMode.modified, parseFileName x, parseFileName y)
    | _ => t
  else t

/-- Fold `nmStep` over a list of lines. -/
def nmFold (ls : List GoStr) (t : FileMode × GoStr × GoStr) : FileMode × GoStr × GoStr :=
  ls.foldl (fun t l => nmStep l t) t

/-- The file sections of an input: for every `diff ` line, the run of
following lines up to (excluding) the next `diff ` line.  Parsed files
correspond 1-1, in order, to these sections. -/
def sectionsGo : List GoStr → List (List GoStr)
  | [] => []
  | l :: rest =>
    if isDiffLine l then rest.takeWhile (fun x => !isDiffLine x) :: sectionsGo rest
    else sectionsGo rest

/-- Does this line overwrite the current file's `NewName`? -/
def setsNewName (l : GoStr) : Bool :=
  (bytesHasPre (gs "+++ ") l && !(l = gs "+++ /dev/null" : Bool)) ||
    bytesHasPre (gs "rename to ") l || bytesHasPre (gs "Binary files ") l

/-- Does this line overwrite the current file's `OrigName`? -/
def setsOrigName (l : GoStr) : Bool :=
  (bytesHasPre (gs "--- ") l && !(l = gs "--- /dev/null" : Bool)) ||
    bytesHasPre (gs "rename from ") l || bytesHasPre (gs "Binary files ") l

/-- The current file's contribution to the eventual mode/name triples:
its triple folded over the rest of its section. -/
def nmCurPart (ls : List GoStr) : Option DiffFile → List (FileMode × GoStr × GoStr)
  | none => []
  | some f => [nmFold (ls.takeWhile (fun x => !isDiffLine x)) (nmOf f)]

/-- The mode/name triples the parse will eventually produce, given the
remaining input and the current state: triples of closed files, then the
current file's triple folded over the rest of its section, then one
triple per upcoming section. -/
def nmLHS (ls : List GoStr) (st : ParseState) : List (FileMode × GoStr × GoStr) :=
  st.done.map nmOf ++ nmCurPart ls st.cur ++ (sectionsGo ls).map (fun sec => nmFold sec nm0)

/-! ### Invariant predicates for hunk numbering and positions -/

/-- The lines carry the numbers `wrap64 s, wrap64 (s+1), ...`: the
running counter starts at the range's declared start and is incremented
(with `int64` wraparound) once per appended line. -/
def numberedFrom (s : Int) : List DiffLine → Prop
  | [] => True
  | x :: r => x.number = wrap64 s ∧ numberedFrom (s + 1) r

/-- Positions of the hunk's content lines are strictly increasing and at
least 1. -/
def posGood (ls : List DiffLine) : Prop :=
  List.Chain' (fun a b => a.position < b.position) ls ∧ ∀ x ∈ ls, 1 ≤ x.position

/-- Range starts come from `strconv.Atoi` of a digit run, hence lie in
`[0, maxI64]`. -/
def hunkStartsOk (h : DiffHunk) : Prop :=
  0 ≤ h.origRange.start ∧ h.origRange.start ≤ maxI64 ∧
    0 ≤ h.newRange.start ∧ h.newRange.start ≤ maxI64

/-- The numbering/position invariant of one parsed hunk. -/
def goodHunk (h : DiffHunk) : Prop :=
  hunkStartsOk h ∧ numberedFrom h.origRange.start h.origRange.lines ∧
    numberedFrom h.newRange.start h.newRange.lines ∧ posGood h.wholeRange.lines

/-- The loop invariant behind the hunk numbering/position properties,
relative to a bound `N` on the total number of input lines: the position
counter stays in `[0, N]`, every recorded hunk is `goodHunk`, and while a
hunk is open the counters mirror its range lengths. -/
def InvHunks (N : Int) (ls : List GoStr) (st : ParseState) : Prop :=
  0 ≤ st.diffPosCount ∧ st.diffPosCount + ls.length ≤ N ∧
    (∀ f ∈ st.done, ∀ h ∈ f.hunks, goodHunk h) ∧
    (∀ f, st.cur = some f → ∀ h ∈ f.hunks, goodHunk h) ∧
    (st.inHunk = true → ∃ f h hs, st.cur = some f ∧ f.hunks = h :: hs ∧
      st.addedCount = wrap64 (h.newRange.start + h.newRange.lines.length) ∧
      st.removedCount = wrap64 (h.origRange.start + h.origRange.lines.length) ∧
      ∀ x ∈ h.wholeRange.lines, x.position ≤ st.diffPosCount)

/-! ### Transition shapes of one accepted loop iteration -/

/-- Shape of a `diff ` step: close the current file, open a fresh one. -/
def ShapeDiff (l : GoStr) (st st' : ParseState) : Prop :=
  bytesHasPre (gs "diff ") l = true ∧
    ∃ hdr, st' = { st with done := st.done ++ closeCur st.cur,
                           cur := some (freshFile hdr),
                           inHunk := false, diffPosCount := wrap64 (st.diffPosCount + 1),
                           firstHunkInFile := true }

/-- Shape of a header step: only the current file's mode/name data (as
described by `nmStep`) changes; its hunks are untouched. -/
def ShapeHdr (l : GoStr) (st st' : ParseState) : Prop :=
  bytesHasPre (gs "diff ") l = false ∧
    ∃ f f', st.cur = some f ∧ f'.hunks = f.hunks ∧ nmOf f' = nmStep l (nmOf f) ∧
      st' = { st with cur := some f', diffPosCount := wrap64 (st.diffPosCount + 1) }

/-- Shape of a hunk-header step: push a fresh hunk, seed the counters. -/
def ShapeAt (l : GoStr) (st st' : ParseState) : Prop :=
  bytesHasPre (gs "diff ") l = false ∧ (∀ t, nmStep l t = t) ∧
    ∃ f hh a b c d, st.cur = some f ∧
      0 ≤ a ∧ a ≤ maxI64 ∧ 0 ≤ c ∧ c ≤ maxI64 ∧
      st' = { st with cur := some { f with hunks := mkHunk hh a b c d :: f.hunks },
                      inHunk := true, firstHunkInFile := false,
                      diffPosCount := if st.firstHunkInFile then 0
                                      else wrap64 (st.diffPosCount + 1),
                      addedCount := c, removedCount := a }

/-- The `DiffLine` built for a content line (before the per-mode `number`
copies are taken). -/
def mkLine (m : DiffLineMode) (n : Int) (l : GoStr) (st : ParseState) : DiffLine :=
  { mode := m, number := n, content := l.drop 1, position := wrap64 (st.diffPosCount + 1) }

/-- Shape of an added content line. -/
def ShapeAdd (l : GoStr) (st st' : ParseState) : Prop :=
  bytesHasPre (gs "diff ") l = false ∧ (∀ t, nmStep l t = t) ∧ st.inHunk = true ∧
    ∃ f h hs, st.cur = some f ∧ f.hunks = h :: hs ∧
      st' = { st with
              cur := some { f with hunks := hunkAddNew h (mkLine .added st.addedCount l st) :: hs },
              addedCount := wrap64 (st.addedCount + 1),
              diffPosCount := wrap64 (st.diffPosCount + 1) }

/-- Shape of a removed content line. -/
def ShapeRem (l : GoStr) (st st' : ParseState) : Prop :=
  bytesHasPre (gs "diff ") l = false ∧ (∀ t, nmStep l t = t) ∧ st.inHunk = true ∧
    ∃ f h hs, st.cur = some f ∧ f.hunks = h :: hs ∧
      st' = { st with
              cur := some { f with hunks := hunkAddOrig h (mkLine .removed st.removedCount l st) :: hs },
              removedCount := wrap64 (st.removedCount + 1),
              diffPosCount := wrap64 (st.diffPosCount + 1) }

/-- Shape of an unchanged content line. -/
def ShapeUnch (l : GoStr) (st st' : ParseState) : Prop :=
  bytesHasPre (gs "diff ") l = false ∧ (∀ t, nmStep l t = t) ∧ st.inHunk = true ∧
    ∃ f h hs, st.cur = some f ∧ f.hunks = h :: hs ∧
      st' = { st with
              cur := some { f with hunks := hunkAddBoth h (mkLine .unchanged st.addedCount l st) (mkLine .unchanged st.removedCount l st) :: hs },
              addedCount := wrap64 (st.addedCount + 1),
              removedCount := wrap64 (st.removedCount + 1),
              diffPosCount := wrap64 (st.diffPosCount + 1) }

/-- Shape of a skipped line: only the position counter advances. -/
def ShapeSkip (l : GoStr) (st st' : ParseState) : Prop :=
  bytesHasPre (gs "diff ") l = false ∧ (∀ t, nmStep l t = t) ∧
    st' = { st with diffPosCount := wrap64 (st.diffPosCount + 1) }

/-! ### Spec-side definition for the `Changed` query -/

/-- Modelled from the spec's words for the derived query: for each
non-deleted file whose new name is `k`, the new-side numbers of its
Added lines, in order.  Compared with the transcription `Changed`. -/
def changedSpec (d : Diff) (k : GoStr) : List Int :=
  catMap (fun f =>
    if f.mode ≠ FileMode.deleted ∧ f.newName = k then
      catMap (fun h =>
        ((h.newRange.lines.filter (fun dl => dl.mode = DiffLineMode.added)).map
          (fun dl => dl.number))) f.hunks
    else []) d.files

/-- ASCII bytes that the unquote loop copies verbatim: no quote, newline,
backslash, or high bit. -/
def asciiClean (u : GoStr) : Bool :=
  u.all (fun c => c < 128 && !(c = 34 : Bool) && !(c = 10 : Bool) && !(c = 92 : Bool))

/-! ### Byte values of the marker literals -/

theorem gsDiff : gs "diff " = [100, 105, 102, 102, 32] := rfl

theorem gsPlusDev : gs "+++ /dev/null" = [43, 43, 43, 32, 47, 100, 101, 118, 47, 110, 117, 108, 108] := rfl

theorem gsMinusDev : gs "--- /dev/null" = [45, 45, 45, 32, 47, 100, 101, 118, 47, 110, 117, 108, 108] := rfl

theorem gsSim : gs "similarity index " = [115, 105, 109, 105, 108, 97, 114, 105, 116, 121, 32, 105, 110, 100, 101, 120, 32] := rfl

theorem gsMinus : gs "--- " = [45, 45, 45, 32] := rfl

theorem gsPlus : gs "+++ " = [43, 43, 43, 32] := rfl

theorem gsRenFrom : gs "rename from " = [114, 101, 110, 97, 109, 101, 32, 102, 114, 111, 109, 32] := rfl

theorem gsRenTo : gs "rename to " = [114, 101, 110, 97, 109, 101, 32, 116, 111, 32] := rfl

theorem gsBin : gs "Binary files " = [66, 105, 110, 97, 114, 121, 32, 102, 105, 108, 101, 115, 32] := rfl

theorem gsAt : gs "@@ " = [64, 64, 32] := rfl

theorem gsSent : gs "\\ No newline at end of file" = [92, 32, 78, 111, 32, 110, 101, 119, 108, 105, 110, 101, 32, 97, 116, 32, 101, 110, 100, 32, 111, 102, 32, 102, 105, 108, 101] := rfl

/-! ### Basic lemmas -/

theorem hasPre_iff (p l : GoStr) : bytesHasPre p l = true ↔ ∃ t, l = p ++ t := by
  induction p generalizing l with
  | nil => simp [bytesHasPre]
  | cons a p ih =>
    cases l with
    | nil => simp [bytesHasPre]
    | cons c cs =>
      simp only [bytesHasPre, Bool.and_eq_true, beq_iff_eq, ih, List.cons_append,
        List.cons.injEq]
      constructor
      · rintro ⟨rfl, t, rfl⟩; exact ⟨t, rfl, rfl⟩
      · rintro ⟨t, rfl, rfl⟩; exact ⟨rfl, t, rfl⟩

theorem wrap64_eq_self {x : Int} (h0 : 0 ≤ x) (h1 : x ≤ maxI64) : wrap64 x = x := by
  have h1' : x ≤ 9223372036854775807 := h1
  have e : (2 : Int) ^ 63 = 9223372036854775808 := by norm_num
  have e2 : (2 : Int) ^ 64 = 18446744073709551616 := by norm_num
  unfold wrap64
  rw [e, e2, Int.emod_eq_of_lt (by omega) (by omega)]
  omega

theorem wrap64_wrap_add (x y : Int) : wrap64 (wrap64 x + y) = wrap64 (x + y) := by
  unfold wrap64
  have h : (x + 2 ^ 63) % 2 ^ 64 - 2 ^ 63 + y + 2 ^ 63 = (x + 2 ^ 63) % 2 ^ 64 + y := by ring
  rw [h, Int.emod_add_emod]
  have h2 : x + 2 ^ 63 + y = x + y + 2 ^ 63 := by ring
  rw [h2]

theorem bfalse {b : Bool} (h : b = false) : ¬ (b = true) := by simp [h]

theorem goAtoi_range {s : GoStr} {v : Int} (h : goAtoi s = some v) : 0 ≤ v ∧ v ≤ maxI64 := by
  unfold goAtoi at h
  split at h
  · split at h
    · cases h; exact ⟨Int.natCast_nonneg _, by assumption⟩
    · cases h
  · cases h

/-- Generic invariant lemma for the line loop. -/
theorem parseAux_inv (Inv : List GoStr → ParseState → Prop)
    (hstep : ∀ l rest st st', Inv (l :: rest) st → stepLine l rest st = .ok st' → Inv rest st') :
    ∀ ls st stf, Inv ls st → parseLinesAux ls st = .ok stf → Inv [] stf := by
  intro ls
  induction ls with
  | nil => intro st stf h hp; cases hp; exact h
  | cons l rest ih =>
    intro st stf h hp
    unfold parseLinesAux at hp
    cases hstepE : stepLine l rest st with
    | ok st' =>
      rw [hstepE] at hp
      exact ih st' stf (hstep l rest st st' h hstepE) hp
    | err e => rw [hstepE] at hp; cases hp
    | crash => rw [hstepE] at hp; cases hp

/-! ### Per-branch reductions of `stepLine` -/

theorem stepLine_eq_diff (l : GoStr) (rest : List GoStr) (st : ParseState)
    (h1 : bytesHasPre (gs "diff ") l = true) :
    stepLine l rest st =
      .ok { st with done := st.done ++ closeCur st.cur,
                    cur := some (freshFile (diffHeaderOf l rest)),
                    inHunk := false, diffPosCount := wrap64 (st.diffPosCount + 1),
                    firstHunkInFile := true } := by
  simp only [stepLine]
  rw [if_pos h1]

theorem stepLine_eq_plusDev (l : GoStr) (rest : List GoStr) (st : ParseState)
    (h1 : bytesHasPre (gs "diff ") l = false)
    (h2 : l = gs "+++ /dev/null") :
    stepLine l rest st =
      (match st.cur with
       | none => .crash
       | some f =>
         .ok { st with cur := some { f with mode := .deleted }, diffPosCount := wrap64 (st.diffPosCount + 1) }) := by
  simp only [stepLine]
  rw [if_neg (bfalse h1), if_pos h2]

theorem stepLine_eq_minusDev (l : GoStr) (rest : List GoStr) (st : ParseState)
    (h1 : bytesHasPre (gs "diff ") l = false)
    (h2 : l ≠ gs "+++ /dev/null")
    (h3 : l = gs "--- /dev/null") :
    stepLine l rest st =
      (match st.cur with
       | none => .crash
       | some f =>
         .ok { st with cur := some { f with mode := .new }, diffPosCount := wrap64 (st.diffPosCount + 1) }) := by
  simp only [stepLine]
  rw [if_neg (bfalse h1), if_neg h2, if_pos h3]

theorem stepLine_eq_sim (l : GoStr) (rest : List GoStr) (st : ParseState)
    (h1 : bytesHasPre (gs "diff ") l = false)
    (h2 : l ≠ gs "+++ /dev/null")
    (h3 : l ≠ gs "--- /dev/null")
    (h4 : bytesHasPre (gs "similarity index ") l = true) :
    stepLine l rest st =
      (match st.cur with
       | none => .crash
       | some f =>
         let f' := { f with mode := FileMode.renamed,
                            similarityIndex := goAtoiVal (trimSufB (gs "%") (l.drop 17)) }
         .ok { st with cur := some f', diffPosCount := wrap64 (st.diffPosCount + 1) }) := by
  simp only [stepLine]
  rw [if_neg (bfalse h1), if_neg h2, if_neg h3, if_pos h4]

theorem stepLine_eq_orig (l : GoStr) (rest : List GoStr) (st : ParseState)
    (h1 : bytesHasPre (gs "diff ") l = false)
    (h2 : l ≠ gs "+++ /dev/null")
    (h3 : l ≠ gs "--- /dev/null")
    (h4 : bytesHasPre (gs "similarity index ") l = false)
    (h5 : bytesHasPre (gs "--- ") l = true) :
    stepLine l rest st =
      (match st.cur with
       | none => .crash
       | some f =>
         let f' := { f with origName := parseFileName (l.drop 4) }
         .ok { st with cur := some f', diffPosCount := wrap64 (st.diffPosCount + 1) }) := by
  simp only [stepLine]
  rw [if_neg (bfalse h1), if_neg h2, if_neg h3, if_neg (bfalse h4), if_pos h5]

theorem stepLine_eq_new (l : GoStr) (rest : List GoStr) (st : ParseState)
    (h1 : bytesHasPre (gs "diff ") l = false)
    (h2 : l ≠ gs "+++ /dev/null")
    (h3 : l ≠ gs "--- /dev/null")
    (h4 : bytesHasPre (gs "similarity index ") l = false)
    (h5 : bytesHasPre (gs "--- ") l = false)
    (h6 : bytesHasPre (gs "+++ ") l = true) :
    stepLine l rest st =
      (match st.cur with
       | none => .crash
       | some f =>
         let f' := { f with newName := parseFileName (l.drop 4) }
         .ok { st with cur := some f', diffPosCount := wrap64 (st.diffPosCount + 1) }) := by
  simp only [stepLine]
  rw [if_neg (bfalse h1), if_neg h2, if_neg h3, if_neg (bfalse h4), if_neg (bfalse h5),
    if_pos h6]

theorem stepLine_eq_renFrom (l : GoStr) (rest : List GoStr) (st : ParseState)
    (h1 : bytesHasPre (gs "diff ") l = false)
    (h2 : l ≠ gs "+++ /dev/null")
    (h3 : l ≠ gs "--- /dev/null")
    (h4 : bytesHasPre (gs "similarity index ") l = false)
    (h5 : bytesHasPre (gs "--- ") l = false)
    (h6 : bytesHasPre (gs "+++ ") l = false)
    (h7 : bytesHasPre (gs "rename from ") l = true) :
    stepLine l rest st =
      (match st.cur with
       | none => .crash
       | some f =>
         let f' := { f with origName := parseFileName (l.drop 12) }
         .ok { st with cur := some f', diffPosCount := wrap64 (st.diffPosCount + 1) }) := by
  simp only [stepLine]
  rw [if_neg (bfalse h1), if_neg h2, if_neg h3, if_neg (bfalse h4), if_neg (bfalse h5),
    if_neg (bfalse h6), if_pos h7]

theorem stepLine_eq_renTo (l : GoStr) (rest : List GoStr) (st : ParseState)
    (h1 : bytesHasPre (gs "diff ") l = false)
    (h2 : l ≠ gs "+++ /dev/null")
    (h3 : l ≠ gs "--- /dev/null")
    (h4 : bytesHasPre (gs "similarity index ") l = false)
    (h5 : bytesHasPre (gs "--- ") l = false)
    (h6 : bytesHasPre (gs "+++ ") l = false)
    (h7 : bytesHasPre (gs "rename from ") l = false)
    (h8 : bytesHasPre (gs "rename to ") l = true) :
    stepLine l rest st =
      (match st.cur with
       | none => .crash
       | some f =>
         let f' := { f with newName := parseFileName (l.drop 10) }
         .ok { st with cur := some f', diffPosCount := wrap64 (st.diffPosCount + 1) }) := by
  simp only [stepLine]
  rw [if_neg (bfalse h1), if_neg h2, if_neg h3, if_neg (bfalse h4), if_neg (bfalse h5),
    if_neg (bfalse h6), if_neg (bfalse h7), if_pos h8]

theorem stepLine_eq_bin (l : GoStr) (rest : List GoStr) (st : ParseState)
    (h1 : bytesHasPre (gs "diff ") l = false)
    (h2 : l ≠ gs "+++ /dev/null")
    (h3 : l ≠ gs "--- /dev/null")
    (h4 : bytesHasPre (gs "similarity index ") l = false)
    (h5 : bytesHasPre (gs "--- ") l = false)
    (h6 : bytesHasPre (gs "+++ ") l = false)
    (h7 : bytesHasPre (gs "rename from ") l = false)
    (h8 : bytesHasPre (gs "rename to ") l = false)
    (h9 : bytesHasPre (gs "Binary files ") l = true) :
    stepLine l rest st =
      (match st.cur with
       | none => .crash
       | some f =>
         match splitSub (gs " and ") (trimSufB (gs " differ") (l.drop 13)) with
         | [x, y] =>
           let f' := { f with mode := FileMode.modified, origName := parseFileName x,
                              newName := parseFileName y }
           .ok { st with cur := some f', diffPosCount := wrap64 (st.diffPosCount + 1) }
         | _ => .err (gs "invalid binary diff")) := by
  simp only [stepLine]
  rw [if_neg (bfalse h1), if_neg h2, if_neg h3, if_neg (bfalse h4), if_neg (bfalse h5),
    if_neg (bfalse h6), if_neg (bfalse h7), if_neg (bfalse h8), if_pos h9]

theorem stepLine_eq_at (l : GoStr) (rest : List GoStr) (st : ParseState)
    (h1 : bytesHasPre (gs "diff ") l = false)
    (h2 : l ≠ gs "+++ /dev/null")
    (h3 : l ≠ gs "--- /dev/null")
    (h4 : bytesHasPre (gs "similarity index ") l = false)
    (h5 : bytesHasPre (gs "--- ") l = false)
    (h6 : bytesHasPre (gs "+++ ") l = false)
    (h7 : bytesHasPre (gs "rename from ") l = false)
    (h8 : bytesHasPre (gs "rename to ") l = false)
    (h9 : bytesHasPre (gs "Binary files ") l = false)
    (h10 : bytesHasPre (gs "@@ ") l = true) :
    stepLine l rest st =
      (match st.cur with
       | none => .crash
       | some f =>
         match findHunk l with
         | none => .err (gs "Error parsing line: " ++ l)
         | some (m1, m2, m3, m4, m5) =>
           match goAtoi m1 with
           | none => .err (gs "strconv.Atoi: parsing: value out of range")
           | some a =>
             match (if m2.isEmpty then some a else goAtoi m2) with
             | none => .err (gs "strconv.Atoi: parsing: value out of range")
             | some b =>
               match goAtoi m3 with
               | none => .err (gs "strconv.Atoi: parsing: value out of range")
               | some c =>
                 match (if m4.isEmpty then some c else goAtoi m4) with
                 | none => .err (gs "strconv.Atoi: parsing: value out of range")
                 | some d =>
                   let hh : GoStr := if m5.isEmpty then [] else m5
                   let f' := { f with hunks := mkHunk hh a b c d :: f.hunks }
                   .ok { st with cur := some f',
                                 inHunk := true, firstHunkInFile := false,
                                 diffPosCount := if st.firstHunkInFile then 0
                                                 else wrap64 (st.diffPosCount + 1),
                                 addedCount := c, removedCount := a }) := by
  simp only [stepLine]
  rw [if_neg (bfalse h1), if_neg h2, if_neg h3, if_neg (bfalse h4), if_neg (bfalse h5),
    if_neg (bfalse h6), if_neg (bfalse h7), if_neg (bfalse h8), if_neg (bfalse h9),
    if_pos h10]

theorem stepLine_eq_content (l : GoStr) (rest : List GoStr) (st : ParseState)
    (h1 : bytesHasPre (gs "diff ") l = false)
    (h2 : l ≠ gs "+++ /dev/null")
    (h3 : l ≠ gs "--- /dev/null")
    (h4 : bytesHasPre (gs "similarity index ") l = false)
    (h5 : bytesHasPre (gs "--- ") l = false)
    (h6 : bytesHasPre (gs "+++ ") l = false)
    (h7 : bytesHasPre (gs "rename from ") l = false)
    (h8 : bytesHasPre (gs "rename to ") l = false)
    (h9 : bytesHasPre (gs "Binary files ") l = false)
    (h10 : bytesHasPre (gs "@@ ") l = false)
    (h11 : (st.inHunk && isSourceLine l) = true) :
    stepLine l rest st =
      (match lineMode l with
       | none => .err (gs "could not parse line mode for line: \"" ++ l ++ [34])
       | some m =>
         match st.cur with
         | none => .crash
         | some f =>
           match f.hunks with
           | [] => .crash
           | h :: hs =>
             match m with
             | .added =>
               let nl : DiffLine :=
                 { mode := m, number := st.addedCount, content := l.drop 1,
                   position := wrap64 (st.diffPosCount + 1) }
               let f' := { f with hunks := hunkAddNew h nl :: hs }
               .ok { st with cur := some f',
                             addedCount := wrap64 (st.addedCount + 1),
                             diffPosCount := wrap64 (st.diffPosCount + 1) }
             | .removed =>
               let ol : DiffLine :=
                 { mode := m, number := st.removedCount, content := l.drop 1,
                   position := wrap64 (st.diffPosCount + 1) }
               let f' := { f with hunks := hunkAddOrig h ol :: hs }
               .ok { st with cur := some f',
                             removedCount := wrap64 (st.removedCount + 1),
                             diffPosCount := wrap64 (st.diffPosCount + 1) }
             | .unchanged =>
               let nl : DiffLine :=
                 { mode := m, number := st.addedCount, content := l.drop 1,
                   position := wrap64 (st.diffPosCount + 1) }
               let ol : DiffLine :=
                 { mode := m, number := st.removedCount, content := l.drop 1,
                   position := wrap64 (st.diffPosCount + 1) }
               let f' := { f with hunks := hunkAddBoth h nl ol :: hs }
               .ok { st with cur := some f',
                             addedCount := wrap64 (st.addedCount + 1),
                             removedCount := wrap64 (st.removedCount + 1),
                             diffPosCount := wrap64 (st.diffPosCount + 1) }) := by
  simp only [stepLine]
  rw [if_neg (bfalse h1), if_neg h2, if_neg h3, if_neg (bfalse h4), if_neg (bfalse h5),
    if_neg (bfalse h6), if_neg (bfalse h7), if_neg (bfalse h8), if_neg (bfalse h9),
    if_neg (bfalse h10), if_pos h11]

theorem nmStep_id (l : GoStr)
    (h2 : l ≠ gs "+++ /dev/null")
    (h3 : l ≠ gs "--- /dev/null")
    (h4 : bytesHasPre (gs "similarity index ") l = false)
    (h5 : bytesHasPre (gs "--- ") l = false)
    (h6 : bytesHasPre (gs "+++ ") l = false)
    (h7 : bytesHasPre (gs "rename from ") l = false)
    (h8 : bytesHasPre (gs "rename to ") l = false)
    (h9 : bytesHasPre (gs "Binary files ") l = false) :
    ∀ t, nmStep l t = t := by
  intro t
  simp only [nmStep]
  rw [if_neg h2, if_neg h3, if_neg (bfalse h4), if_neg (bfalse h5), if_neg (bfalse h6),
    if_neg (bfalse h7), if_neg (bfalse h8), if_neg (bfalse h9)]

theorem stepLine_eq_skip (l : GoStr) (rest : List GoStr) (st : ParseState)
    (h1 : bytesHasPre (gs "diff ") l = false)
    (h2 : l ≠ gs "+++ /dev/null")
    (h3 : l ≠ gs "--- /dev/null")
    (h4 : bytesHasPre (gs "similarity index ") l = false)
    (h5 : bytesHasPre (gs "--- ") l = false)
    (h6 : bytesHasPre (gs "+++ ") l = false)
    (h7 : bytesHasPre (gs "rename from ") l = false)
    (h8 : bytesHasPre (gs "rename to ") l = false)
    (h9 : bytesHasPre (gs "Binary files ") l = false)
    (h10 : bytesHasPre (gs "@@ ") l = false)
    (h11 : (st.inHunk && isSourceLine l) = false) :
    stepLine l rest st = .ok { st with diffPosCount := wrap64 (st.diffPosCount + 1) } := by
  simp only [stepLine]
  rw [if_neg (bfalse h1), if_neg h2, if_neg h3, if_neg (bfalse h4), if_neg (bfalse h5),
    if_neg (bfalse h6), if_neg (bfalse h7), if_neg (bfalse h8), if_neg (bfalse h9),
    if_neg (bfalse h10), if_neg (bfalse h11)]

/-- Every accepted loop iteration has one of the seven transition shapes. -/
theorem step_shape (l : GoStr) (rest : List GoStr) (st st' : ParseState)
    (hstep : stepLine l rest st = .ok st') :
    ShapeDiff l st st' ∨ ShapeHdr l st st' ∨ ShapeAt l st st' ∨
      ShapeAdd l st st' ∨ ShapeRem l st st' ∨ ShapeUnch l st st' ∨ ShapeSkip l st st' := by
  cases h1 : bytesHasPre (gs "diff ") l with
  | true =>
    rw [stepLine_eq_diff l rest st h1] at hstep
    injection hstep with h
    subst h
    exact Or.inl ⟨h1, diffHeaderOf l rest, rfl⟩
  | false =>
  by_cases h2 : l = gs "+++ /dev/null"
  · rw [stepLine_eq_plusDev l rest st h1 h2] at hstep
    cases hcur : st.cur with
    | none => rw [hcur] at hstep; exact PResult.noConfusion hstep
    | some f =>
      rw [hcur] at hstep
      injection hstep with h
      subst h
      refine Or.inr (Or.inl ⟨h1, f, { f with mode := FileMode.deleted }, hcur, rfl, ?_, rfl⟩)
      simp only [nmStep]
      rw [if_pos h2]
      all_goals rfl
  · by_cases h3 : l = gs "--- /dev/null"
    · rw [stepLine_eq_minusDev l rest st h1 h2 h3] at hstep
      cases hcur : st.cur with
      | none => rw [hcur] at hstep; exact PResult.noConfusion hstep
      | some f =>
        rw [hcur] at hstep
        injection hstep with h
        subst h
        refine Or.inr (Or.inl ⟨h1, f, { f with mode := FileMode.new }, hcur, rfl, ?_, rfl⟩)
        simp only [nmStep]
        rw [if_neg h2, if_pos h3]
        all_goals rfl
    · cases h4 : bytesHasPre (gs "similarity index ") l with
      | true =>
        rw [stepLine_eq_sim l rest st h1 h2 h3 h4] at hstep
        cases hcur : st.cur with
        | none => rw [hcur] at hstep; exact PResult.noConfusion hstep
        | some f =>
          rw [hcur] at hstep
          injection hstep with h
          subst h
          refine Or.inr (Or.inl ⟨h1, f,
            { f with mode := FileMode.renamed,
                     similarityIndex := goAtoiVal (trimSufB (gs "%") (l.drop 17)) },
            hcur, rfl, ?_, rfl⟩)
          simp only [nmStep]
          rw [if_neg h2, if_neg h3, if_pos h4]
          all_goals rfl
      | false =>
      cases h5 : bytesHasPre (gs "--- ") l with
      | true =>
        rw [stepLine_eq_orig l rest st h1 h2 h3 h4 h5] at hstep
        cases hcur : st.cur with
        | none => rw [hcur] at hstep; exact PResult.noConfusion hstep
        | some f =>
          rw [hcur] at hstep
          injection hstep with h
          subst h
          refine Or.inr (Or.inl ⟨h1, f, { f with origName := parseFileName (l.drop 4) },
            hcur, rfl, ?_, rfl⟩)
          simp only [nmStep]
          rw [if_neg h2, if_neg h3, if_neg (bfalse h4), if_pos h5]
          all_goals rfl
      | false =>
      cases h6 : bytesHasPre (gs "+++ ") l with
      | true =>
        rw [stepLine_eq_new l rest st h1 h2 h3 h4 h5 h6] at hstep
        cases hcur : st.cur with
        | none => rw [hcur] at hstep; exact PResult.noConfusion hstep
        | some f =>
          rw [hcur] at hstep
          injection hstep with h
          subst h
          refine Or.inr (Or.inl ⟨h1, f, { f with newName := parseFileName (l.drop 4) },
            hcur, rfl, ?_, rfl⟩)
          simp only [nmStep]
          rw [if_neg h2, if_neg h3, if_neg (bfalse h4), if_neg (bfalse h5), if_pos h6]
          all_goals rfl
      | false =>
      cases h7 : bytesHasPre (gs "rename from ") l with
      | true =>
        rw [stepLine_eq_renFrom l rest st h1 h2 h3 h4 h5 h6 h7] at hstep
        cases hcur : st.cur with
        | none => rw [hcur] at hstep; exact PResult.noConfusion hstep
        | some f =>
          rw [hcur] at hstep
          injection hstep with h
          subst h
          refine Or.inr (Or.inl ⟨h1, f, { f with origName := parseFileName (l.drop 12) },
            hcur, rfl, ?_, rfl⟩)
          simp only [nmStep]
          rw [if_neg h2, if_neg h3, if_neg (bfalse h4), if_neg (bfalse h5),
            if_neg (bfalse h6), if_pos h7]
          all_goals rfl
      | false =>
      cases h8 : bytesHasPre (gs "rename to ") l with
      | true =>
        rw [stepLine_eq_renTo l rest st h1 h2 h3 h4 h5 h6 h7 h8] at hstep
        cases hcur : st.cur with
        | none => rw [hcur] at hstep; exact PResult.noConfusion hstep
        | some f =>
          rw [hcur] at hstep
          injection hstep with h
          subst h
          refine Or.inr (Or.inl ⟨h1, f, { f with newName := parseFileName (l.drop 10) },
            hcur, rfl, ?_, rfl⟩)
          simp only [nmStep]
          rw [if_neg h2, if_neg h3, if_neg (bfalse h4), if_neg (bfalse h5),
            if_neg (bfalse h6), if_neg (bfalse h7), if_pos h8]
          all_goals rfl
      | false =>
      cases h9 : bytesHasPre (gs "Binary files ") l with
      | true =>
        rw [stepLine_eq_bin l rest st h1 h2 h3 h4 h5 h6 h7 h8 h9] at hstep
        cases hcur : st.cur with
        | none => rw [hcur] at hstep; exact PResult.noConfusion hstep
        | some f =>
          simp only [hcur] at hstep
          cases hsp : splitSub (gs " and ") (trimSufB (gs " differ") (l.drop 13)) with
          | nil => simp only [hsp] at hstep; exact PResult.noConfusion hstep
          | cons x t1 =>
            cases t1 with
            | nil => simp only [hsp] at hstep; exact PResult.noConfusion hstep
            | cons y t2 =>
              cases t2 with
              | nil =>
                simp only [hsp] at hstep
                injection hstep with h
                subst h
                refine Or.inr (Or.inl ⟨h1, f,
                  { f with mode := FileMode.modified, origName := parseFileName x,
                           newName := parseFileName y },
                  hcur, rfl, ?_, rfl⟩)
                simp only [nmStep]
                rw [if_neg h2, if_neg h3, if_neg (bfalse h4), if_neg (bfalse h5),
                  if_neg (bfalse h6), if_neg (bfalse h7), if_neg (bfalse h8), if_pos h9,
                  hsp]
                all_goals rfl
              | cons z t3 => simp only [hsp] at hstep; exact PResult.noConfusion hstep
      | false =>
      have hnm : ∀ t, nmStep l t = t := nmStep_id l h2 h3 h4 h5 h6 h7 h8 h9
      cases h10 : bytesHasPre (gs "@@ ") l with
      | true =>
        rw [stepLine_eq_at l rest st h1 h2 h3 h4 h5 h6 h7 h8 h9 h10] at hstep
        cases hcur : st.cur with
        | none => rw [hcur] at hstep; exact PResult.noConfusion hstep
        | some f =>
          simp only [hcur] at hstep
          cases hfh : findHunk l with
          | none => simp only [hfh] at hstep; exact PResult.noConfusion hstep
          | some m =>
            obtain ⟨m1, m2, m3, m4, m5⟩ := m
            simp only [hfh] at hstep
            cases ha : goAtoi m1 with
            | none => simp only [ha] at hstep; exact PResult.noConfusion hstep
            | some a =>
              simp only [ha] at hstep
              cases hb : (if m2.isEmpty then some a else goAtoi m2) with
              | none => simp only [hb] at hstep; exact PResult.noConfusion hstep
              | some b =>
                simp only [hb] at hstep
                cases hc : goAtoi m3 with
                | none => simp only [hc] at hstep; exact PResult.noConfusion hstep
                | some c =>
                  simp only [hc] at hstep
                  cases hd : (if m4.isEmpty then some c else goAtoi m4) with
                  | none => simp only [hd] at hstep; exact PResult.noConfusion hstep
                  | some d =>
                    simp only [hd] at hstep
                    injection hstep with h
                    subst h
                    have harange := goAtoi_range ha
                    have hcrange : 0 ≤ c ∧ c ≤ maxI64 := by
                      rcases hb2 : m2.isEmpty with _ | _ <;> rw [hb2] at hb
                      · exact goAtoi_range hc
                      · exact goAtoi_range hc
                    refine Or.inr (Or.inr (Or.inl ⟨h1, hnm,
                      f, (if m5.isEmpty then [] else m5), a, b, c, d, hcur,
                      harange.1, harange.2, hcrange.1, hcrange.2, rfl⟩))
      | false =>
      cases h11 : (st.inHunk && isSourceLine l) with
      | false =>
        rw [stepLine_eq_skip l rest st h1 h2 h3 h4 h5 h6 h7 h8 h9 h10 h11] at hstep
        injection hstep with h
        subst h
        exact Or.inr (Or.inr (Or.inr (Or.inr (Or.inr (Or.inr ⟨h1, hnm, rfl⟩)))))
      | true =>
        have hin : st.inHunk = true := by
          rcases Bool.and_eq_true .. |>.mp h11 with ⟨hl, _⟩
          exact hl
        rw [stepLine_eq_content l rest st h1 h2 h3 h4 h5 h6 h7 h8 h9 h10 h11] at hstep
        cases hlm : lineMode l with
        | none => simp only [hlm] at hstep; exact PResult.noConfusion hstep
        | some m =>
          simp only [hlm] at hstep
          cases hcur : st.cur with
          | none => simp only [hcur] at hstep; exact PResult.noConfusion hstep
          | some f =>
            simp only [hcur] at hstep
            cases hhk : f.hunks with
            | nil => simp only [hhk] at hstep; exact PResult.noConfusion hstep
            | cons h hs =>
              simp only [hhk] at hstep
              cases m with
              | added =>
                injection hstep with he
                subst he
                exact Or.inr (Or.inr (Or.inr (Or.inl
                  ⟨h1, hnm, hin, f, h, hs, hcur, hhk, rfl⟩)))
              | removed =>
                injection hstep with he
                subst he
                exact Or.inr (Or.inr (Or.inr (Or.inr (Or.inl
                  ⟨h1, hnm, hin, f, h, hs, hcur, hhk, rfl⟩))))
              | unchanged =>
                injection hstep with he
                subst he
                exact Or.inr (Or.inr (Or.inr (Or.inr (Or.inr (Or.inl
                  ⟨h1, hnm, hin, f, h, hs, hcur, hhk, rfl⟩)))))

/-! ### Numbering / position lemmas -/

theorem numberedFrom_snoc (s : Int) (ls : List DiffLine) (x : DiffLine)
    (h : numberedFrom s ls) (hx : x.number = wrap64 (s + ls.length)) :
    numberedFrom s (ls ++ [x]) := by
  induction ls generalizing s with
  | nil =>
    refine ⟨?_, trivial⟩
    simpa using hx
  | cons y ys ih =>
    obtain ⟨hy, hrest⟩ := h
    refine ⟨hy, ih (s + 1) hrest ?_⟩
    rw [hx]
    congr 1
    push_cast [List.length_cons]
    ring

theorem numberedFrom_get (s : Int) (ls : List DiffLine) (h : numberedFrom s ls) :
    ∀ i (hi : i < ls.length), (ls.get ⟨i, hi⟩).number = wrap64 (s + i) := by
  induction ls generalizing s with
  | nil => intro i hi; simp at hi
  | cons y ys ih =>
    intro i hi
    cases i with
    | zero => simpa using h.1
    | succ j =>
      have hj := ih (s + 1) h.2 j (by simpa using hi)
      rw [List.get_cons_succ, hj]
      congr 1
      push_cast
      ring

theorem numberedFrom_chain (s : Int) (ls : List DiffLine) (h : numberedFrom s ls)
    (h0 : 0 ≤ s) (hb : s + ls.length ≤ maxI64) :
    List.Chain' (fun a b => a.number < b.number) ls ∧ ∀ x ∈ ls.head?, x.number = s := by
  induction ls generalizing s with
  | nil => exact ⟨List.chain'_nil, by simp⟩
  | cons y ys ih =>
    obtain ⟨hy, hrest⟩ := h
    have hlen : (0 : Int) ≤ ys.length := by positivity
    have hsmax : s ≤ maxI64 := by
      have : ((y :: ys).length : Int) = ys.length + 1 := by push_cast [List.length_cons]; ring
      rw [this] at hb
      omega
    have hy' : y.number = s := by rw [hy, wrap64_eq_self h0 hsmax]
    have hb' : s + 1 + (ys.length : Int) ≤ maxI64 := by
      have : ((y :: ys).length : Int) = ys.length + 1 := by push_cast [List.length_cons]; ring
      rw [this] at hb
      omega
    have ihh := ih (s + 1) hrest (by omega) hb'
    constructor
    · rw [List.chain'_cons']
      refine ⟨?_, ihh.1⟩
      intro z hz
      have hz' := ihh.2 z hz
      rw [hy', hz']
      omega
    · intro x hx
      simp only [List.head?_cons, Option.mem_def, Option.some.injEq] at hx
      exact hx ▸ hy'

theorem posGood_snoc (ls : List DiffLine) (x : DiffLine) (hg : posGood ls)
    (hgt : ∀ y ∈ ls, y.position < x.position) (hx1 : 1 ≤ x.position) :
    posGood (ls ++ [x]) := by
  constructor
  · rw [List.chain'_append]
    refine ⟨hg.1, List.chain'_singleton x, ?_⟩
    intro a ha b hb
    simp only [List.head?_cons, Option.mem_def, Option.some.injEq] at hb
    subst hb
    obtain ⟨hne, heq⟩ := List.mem_getLast?_eq_getLast ha
    rw [heq]
    exact hgt _ (List.getLast_mem hne)
  · intro y hy
    rcases List.mem_append.mp hy with h1 | h2
    · exact hg.2 y h1
    · simp only [List.mem_singleton] at h2
      subst h2
      exact hx1

/-- One accepted iteration preserves the hunk invariant. -/
theorem InvHunks_step (N : Int) (hN : N ≤ maxI64) (l : GoStr) (rest : List GoStr)
    (st st' : ParseState) (hInv : InvHunks N (l :: rest) st)
    (hstep : stepLine l rest st = .ok st') : InvHunks N rest st' := by
  obtain ⟨hdc0, hdcN, hdone, hcurg, hinh⟩ := hInv
  have hlcons : ((l :: rest).length : Int) = (rest.length : Int) + 1 := by
    push_cast [List.length_cons]
    ring
  rw [hlcons] at hdcN
  have hdc1 : st.diffPosCount + 1 + (rest.length : Int) ≤ N := by omega
  have hrlen : (0 : Int) ≤ rest.length := by positivity
  have hwdc : wrap64 (st.diffPosCount + 1) = st.diffPosCount + 1 :=
    wrap64_eq_self (by omega) (by omega)
  rcases step_shape l rest st st' hstep with hS | hS | hS | hS | hS | hS | hS
  · -- diff line
    obtain ⟨h1, hdr, rfl⟩ := hS
    refine ⟨by dsimp only; omega, by dsimp only; rw [hwdc]; omega, ?_, ?_, by simp⟩
    · intro f hf h hh
      rcases List.mem_append.mp hf with hf1 | hf2
      · exact hdone f hf1 h hh
      · cases hcur : st.cur with
        | none => rw [hcur] at hf2; simp [closeCur] at hf2
        | some f0 =>
          rw [hcur] at hf2
          simp only [closeCur, List.mem_singleton] at hf2
          subst hf2
          simp only [List.mem_reverse] at hh
          exact hcurg f0 hcur h hh
    · intro f hf h hh
      simp only [Option.some.injEq] at hf
      subst hf
      simp [freshFile] at hh
  · -- header line
    obtain ⟨h1, f, f', hcur, hhunks, hnm, rfl⟩ := hS
    refine ⟨by dsimp only; omega, by dsimp only; rw [hwdc]; omega, hdone, ?_, ?_⟩
    · intro g hg h hh
      simp only [Option.some.injEq] at hg
      subst hg
      rw [hhunks] at hh
      exact hcurg f hcur h hh
    · intro hh
      obtain ⟨f0, h0, hs0, hcur0, hhk0, hadd, hrem, hpos⟩ := hinh hh
      have hff : f0 = f := by
        rw [hcur] at hcur0
        exact (Option.some.inj hcur0).symm
      subst hff
      refine ⟨f', h0, hs0, rfl, by rw [hhunks, hhk0], hadd, hrem, ?_⟩
      intro x hx
      have := hpos x hx
      dsimp only
      omega
  · -- hunk header line
    obtain ⟨h1, hnm, f, hh, a, b, c, d, hcur, ha0, ha1, hc0, hc1, rfl⟩ := hS
    constructor
    · dsimp only
      split <;> omega
    · constructor
      · dsimp only
        split
        · omega
        · rw [hwdc]; omega
      refine ⟨hdone, ?_, ?_⟩
      · intro g hg hk hhk
        simp only [Option.some.injEq] at hg
        subst hg
        simp only at hhk
        rcases List.mem_cons.mp hhk with hk1 | hk2
        · subst hk1
          exact ⟨⟨ha0, ha1, hc0, hc1⟩, trivial, trivial, List.chain'_nil, by simp [mkHunk]⟩
        · exact hcurg f hcur hk hk2
      · intro _
        refine ⟨_, mkHunk hh a b c d, f.hunks, rfl, rfl, ?_, ?_, by simp [mkHunk]⟩
        · simp only [mkHunk, List.length_nil, Nat.cast_zero, add_zero]
          exact (wrap64_eq_self hc0 hc1).symm
        · simp only [mkHunk, List.length_nil, Nat.cast_zero, add_zero]
          exact (wrap64_eq_self ha0 ha1).symm
  · -- added content line
    obtain ⟨h1, hnm, hin, f, h, hs, hcur, hhk, rfl⟩ := hS
    obtain ⟨f0, h0, hs0, hcur0, hhk0, hadd, hrem, hpos⟩ := hinh hin
    rw [hcur] at hcur0
    replace hcur0 := Option.some.inj hcur0
    subst hcur0
    rw [hhk] at hhk0
    obtain ⟨hh0, hhs0⟩ := List.cons.inj hhk0
    subst hh0
    subst hhs0
    have hgood : goodHunk h := hcurg f hcur h (by rw [hhk]; exact List.mem_cons_self h hs)
    obtain ⟨hsok, hnorig, hnnew, hpg⟩ := hgood
    refine ⟨by dsimp only; omega, by dsimp only; rw [hwdc]; omega, hdone, ?_, ?_⟩
    · intro g hg hk hhk2
      simp only [Option.some.injEq] at hg
      subst hg
      simp only at hhk2
      rcases List.mem_cons.mp hhk2 with hk1 | hk2
      · subst hk1
        refine ⟨hsok, hnorig, ?_, ?_⟩
        · exact numberedFrom_snoc _ _ _ hnnew (by exact hadd)
        · refine posGood_snoc _ _ hpg ?_ ?_
          · intro y hy
            have := hpos y hy
            dsimp only [mkLine]
            rw [hwdc]
            omega
          · dsimp only [mkLine]
            rw [hwdc]
            omega
      · exact hcurg f hcur hk (by rw [hhk]; exact List.mem_cons_of_mem h hk2)
    · intro _
      refine ⟨_, hunkAddNew h (mkLine .added st.addedCount l st), hs, rfl, rfl, ?_, ?_, ?_⟩
      · dsimp only [hunkAddNew]
        rw [List.length_append, List.length_singleton, hadd, wrap64_wrap_add]
        congr 1
        push_cast
        ring
      · dsimp only [hunkAddNew]
        exact hrem
      · intro x hx
        dsimp only [hunkAddNew] at hx
        rcases List.mem_append.mp hx with hx1 | hx2
        · have := hpos x hx1
          dsimp only
          omega
        · simp only [List.mem_singleton] at hx2
          subst hx2
          dsimp only [mkLine]
          omega
  · -- removed content line
    obtain ⟨h1, hnm, hin, f, h, hs, hcur, hhk, rfl⟩ := hS
    obtain ⟨f0, h0, hs0, hcur0, hhk0, hadd, hrem, hpos⟩ := hinh hin
    rw [hcur] at hcur0
    replace hcur0 := Option.some.inj hcur0
    subst hcur0
    rw [hhk] at hhk0
    obtain ⟨hh0, hhs0⟩ := List.cons.inj hhk0
    subst hh0
    subst hhs0
    have hgood : goodHunk h := hcurg f hcur h (by rw [hhk]; exact List.mem_cons_self h hs)
    obtain ⟨hsok, hnorig, hnnew, hpg⟩ := hgood
    refine ⟨by dsimp only; omega, by dsimp only; rw [hwdc]; omega, hdone, ?_, ?_⟩
    · intro g hg hk hhk2
      simp only [Option.some.injEq] at hg
      subst hg
      simp only at hhk2
      rcases List.mem_cons.mp hhk2 with hk1 | hk2
      · subst hk1
        refine ⟨hsok, ?_, hnnew, ?_⟩
        · exact numberedFrom_snoc _ _ _ hnorig (by exact hrem)
        · refine posGood_snoc _ _ hpg ?_ ?_
          · intro y hy
            have := hpos y hy
            dsimp only [mkLine]
            rw [hwdc]
            omega
          · dsimp only [mkLine]
            rw [hwdc]
            omega
      · exact hcurg f hcur hk (by rw [hhk]; exact List.mem_cons_of_mem h hk2)
    · intro _
      refine ⟨_, hunkAddOrig h (mkLine .removed st.removedCount l st), hs, rfl, rfl, ?_, ?_, ?_⟩
      · dsimp only [hunkAddOrig]
        exact hadd
      · dsimp only [hunkAddOrig]
        rw [List.length_append, List.length_singleton, hrem, wrap64_wrap_add]
        congr 1
        push_cast
        ring
      · intro x hx
        dsimp only [hunkAddOrig] at hx
        rcases List.mem_append.mp hx with hx1 | hx2
        · have := hpos x hx1
          dsimp only
          omega
        · simp only [List.mem_singleton] at hx2
          subst hx2
          dsimp only [mkLine]
          omega
  · -- unchanged content line
    obtain ⟨h1, hnm, hin, f, h, hs, hcur, hhk, rfl⟩ := hS
    obtain ⟨f0, h0, hs0, hcur0, hhk0, hadd, hrem, hpos⟩ := hinh hin
    rw [hcur] at hcur0
    replace hcur0 := Option.some.inj hcur0
    subst hcur0
    rw [hhk] at hhk0
    obtain ⟨hh0, hhs0⟩ := List.cons.inj hhk0
    subst hh0
    subst hhs0
    have hgood : goodHunk h := hcurg f hcur h (by rw [hhk]; exact List.mem_cons_self h hs)
    obtain ⟨hsok, hnorig, hnnew, hpg⟩ := hgood
    refine ⟨by dsimp only; omega, by dsimp only; rw [hwdc]; omega, hdone, ?_, ?_⟩
    · intro g hg hk hhk2
      simp only [Option.some.injEq] at hg
      subst hg
      simp only at hhk2
      rcases List.mem_cons.mp hhk2 with hk1 | hk2
      · subst hk1
        refine ⟨hsok, ?_, ?_, ?_⟩
        · exact numberedFrom_snoc _ _ _ hnorig (by exact hrem)
        · exact numberedFrom_snoc _ _ _ hnnew (by exact hadd)
        · refine posGood_snoc _ _ hpg ?_ ?_
          · intro y hy
            have := hpos y hy
            dsimp only [mkLine]
            rw [hwdc]
            omega
          · dsimp only [mkLine]
            rw [hwdc]
            omega
      · exact hcurg f hcur hk (by rw [hhk]; exact List.mem_cons_of_mem h hk2)
    · intro _
      refine ⟨_, hunkAddBoth h (mkLine .unchanged st.addedCount l st)
        (mkLine .unchanged st.removedCount l st), hs, rfl, rfl, ?_, ?_, ?_⟩
      · dsimp only [hunkAddBoth]
        rw [List.length_append, List.length_singleton, hadd, wrap64_wrap_add]
        congr 1
        push_cast
        ring
      · dsimp only [hunkAddBoth]
        rw [List.length_append, List.length_singleton, hrem, wrap64_wrap_add]
        congr 1
        push_cast
        ring
      · intro x hx
        dsimp only [hunkAddBoth] at hx
        rcases List.mem_append.mp hx with hx1 | hx2
        · have := hpos x hx1
          dsimp only
          omega
        · simp only [List.mem_singleton] at hx2
          subst hx2
          dsimp only [mkLine]
          omega
  · -- skipped line
    obtain ⟨h1, hnm, rfl⟩ := hS
    refine ⟨by dsimp only; omega, by dsimp only; rw [hwdc]; omega, hdone, hcurg, ?_⟩
    intro hh
    obtain ⟨f0, h0, hs0, hcur0, hhk0, hadd, hrem, hpos⟩ := hinh hh
    refine ⟨f0, h0, hs0, hcur0, hhk0, hadd, hrem, ?_⟩
    intro x hx
    have := hpos x hx
    dsimp only
    omega

/-- Every hunk of a successful parse satisfies `goodHunk`, provided the
input has at most `maxI64` lines (every real input does). -/
theorem parse_goodHunks (s : GoStr) (d : Diff)
    (hN : ((splitNl s).length : Int) ≤ maxI64)
    (hp : Parse s = .ok d) :
    ∀ f ∈ d.files, ∀ h ∈ f.hunks, goodHunk h := by
  unfold Parse at hp
  cases hrun : parseLinesAux (splitNl s) initState with
  | err e => rw [hrun] at hp; exact PResult.noConfusion hp
  | crash => rw [hrun] at hp; exact PResult.noConfusion hp
  | ok stf =>
    rw [hrun] at hp
    injection hp with hp
    subst hp
    have hInv0 : InvHunks ((splitNl s).length : Int) (splitNl s) initState := by
      refine ⟨le_refl 0, by simp [initState], by simp [initState], ?_, by simp [initState]⟩
      intro f hf
      simp [initState] at hf
    have hfin := parseAux_inv (InvHunks ((splitNl s).length : Int))
      (fun l rest st st' hI hs => InvHunks_step _ hN l rest st st' hI hs)
      (splitNl s) initState stf hInv0 hrun
    obtain ⟨_, _, hdone, hcurg, _⟩ := hfin
    intro f hf h hh
    simp only at hf
    rcases List.mem_append.mp hf with hf1 | hf2
    · exact hdone f hf1 h hh
    · cases hcur : stf.cur with
      | none => rw [hcur] at hf2; simp [closeCur] at hf2
      | some f0 =>
        rw [hcur] at hf2
        simp only [closeCur, List.mem_singleton] at hf2
        subst hf2
        simp only [List.mem_reverse] at hh
        exact hcurg f0 hcur h hh

/-! ### The mode/name characterization -/

theorem closeCur_map_nmOf (oc : Option DiffFile) :
    (closeCur oc).map nmOf = (match oc with | none => [] | some f => [nmOf f]) := by
  cases oc with
  | none => rfl
  | some f => rfl

theorem nmFold_cons (l : GoStr) (ls : List GoStr) (t : FileMode × GoStr × GoStr) :
    nmFold (l :: ls) t = nmFold ls (nmStep l t) := rfl

theorem nmCurPart_some (ls : List GoStr) (f : DiffFile) :
    nmCurPart ls (some f) = [nmFold (ls.takeWhile (fun x => !isDiffLine x)) (nmOf f)] := rfl

theorem nmCurPart_none (ls : List GoStr) : nmCurPart ls none = [] := rfl

theorem sectionsGo_cons (l : GoStr) (rest : List GoStr) :
    sectionsGo (l :: rest) =
      if isDiffLine l then rest.takeWhile (fun x => !isDiffLine x) :: sectionsGo rest
      else sectionsGo rest := rfl

/-- One accepted iteration leaves the eventual mode/name triples fixed. -/
theorem nmLHS_step (l : GoStr) (rest : List GoStr) (st st' : ParseState)
    (hstep : stepLine l rest st = .ok st') : nmLHS rest st' = nmLHS (l :: rest) st := by
  rcases step_shape l rest st st' hstep with hS | hS | hS | hS | hS | hS | hS
  · -- diff line
    obtain ⟨h1, hdr, rfl⟩ := hS
    have hd : isDiffLine l = true := h1
    unfold nmLHS
    dsimp only
    rw [List.map_append, closeCur_map_nmOf, nmCurPart_some, sectionsGo_cons, if_pos hd]
    have hfresh : nmOf (freshFile hdr) = nm0 := rfl
    rw [hfresh]
    cases hcur : st.cur with
    | none => rw [nmCurPart_none]; simp [nmFold]
    | some f => rw [nmCurPart_some]; simp [nmFold, List.takeWhile_cons, hd]
  · -- header line
    obtain ⟨h1, f, f', hcur, hhunks, hnm, rfl⟩ := hS
    have hd : isDiffLine l = false := h1
    unfold nmLHS
    dsimp only
    rw [hcur, nmCurPart_some, nmCurPart_some, sectionsGo_cons, if_neg (bfalse hd)]
    have htw : (l :: rest).takeWhile (fun x => !isDiffLine x) =
        l :: rest.takeWhile (fun x => !isDiffLine x) := by
      rw [List.takeWhile_cons, hd]
      simp
    rw [htw, nmFold_cons, ← hnm]
  · -- hunk header line
    obtain ⟨h1, hnm, f, hh, a, b, c, d, hcur, _, _, _, _, rfl⟩ := hS
    have hd : isDiffLine l = false := h1
    unfold nmLHS
    dsimp only
    rw [hcur, nmCurPart_some, nmCurPart_some, sectionsGo_cons, if_neg (bfalse hd)]
    have htw : (l :: rest).takeWhile (fun x => !isDiffLine x) =
        l :: rest.takeWhile (fun x => !isDiffLine x) := by
      rw [List.takeWhile_cons, hd]
      simp
    rw [htw, nmFold_cons, hnm]
    rfl
  · -- added content line
    obtain ⟨h1, hnm, hin, f, h, hs, hcur, hhk, rfl⟩ := hS
    have hd : isDiffLine l = false := h1
    unfold nmLHS
    dsimp only
    rw [hcur, nmCurPart_some, nmCurPart_some, sectionsGo_cons, if_neg (bfalse hd)]
    have htw : (l :: rest).takeWhile (fun x => !isDiffLine x) =
        l :: rest.takeWhile (fun x => !isDiffLine x) := by
      rw [List.takeWhile_cons, hd]
      simp
    rw [htw, nmFold_cons, hnm]
    rfl
  · -- removed content line
    obtain ⟨h1, hnm, hin, f, h, hs, hcur, hhk, rfl⟩ := hS
    have hd : isDiffLine l = false := h1
    unfold nmLHS
    dsimp only
    rw [hcur, nmCurPart_some, nmCurPart_some, sectionsGo_cons, if_neg (bfalse hd)]
    have htw : (l :: rest).takeWhile (fun x => !isDiffLine x) =
        l :: rest.takeWhile (fun x => !isDiffLine x) := by
      rw [List.takeWhile_cons, hd]
      simp
    rw [htw, nmFold_cons, hnm]
    rfl
  · -- unchanged content line
    obtain ⟨h1, hnm, hin, f, h, hs, hcur, hhk, rfl⟩ := hS
    have hd : isDiffLine l = false := h1
    unfold nmLHS
    dsimp only
    rw [hcur, nmCurPart_some, nmCurPart_some, sectionsGo_cons, if_neg (bfalse hd)]
    have htw : (l :: rest).takeWhile (fun x => !isDiffLine x) =
        l :: rest.takeWhile (fun x => !isDiffLine x) := by
      rw [List.takeWhile_cons, hd]
      simp
    rw [htw, nmFold_cons, hnm]
    rfl
  · -- skipped line
    obtain ⟨h1, hnm, rfl⟩ := hS
    have hd : isDiffLine l = false := h1
    unfold nmLHS
    dsimp only
    rw [sectionsGo_cons, if_neg (bfalse hd)]
    have htw : (l :: rest).takeWhile (fun x => !isDiffLine x) =
        l :: rest.takeWhile (fun x => !isDiffLine x) := by
      rw [List.takeWhile_cons, hd]
      simp
    cases hcur : st.cur with
    | none => rw [nmCurPart_none, nmCurPart_none]
    | some f =>
      rw [nmCurPart_some, nmCurPart_some, htw, nmFold_cons, hnm]

/-- The mode/name triples of the parsed files are exactly the `nmStep`
folds of the input's file sections. -/
theorem parse_nm (s : GoStr) (d : Diff) (hp : Parse s = .ok d) :
    d.files.map nmOf = (sectionsGo (splitNl s)).map (fun sec => nmFold sec nm0) := by
  unfold Parse at hp
  cases hrun : parseLinesAux (splitNl s) initState with
  | err e => rw [hrun] at hp; exact PResult.noConfusion hp
  | crash => rw [hrun] at hp; exact PResult.noConfusion hp
  | ok stf =>
    rw [hrun] at hp
    injection hp with hp
    subst hp
    have hInv0 : nmLHS (splitNl s) initState =
        (sectionsGo (splitNl s)).map (fun sec => nmFold sec nm0) := by
      simp [nmLHS, initState, nmCurPart]
    have hfin := parseAux_inv
      (fun ls st => nmLHS ls st = (sectionsGo (splitNl s)).map (fun sec => nmFold sec nm0))
      (fun l rest st st' hI hs => by
        show nmLHS rest st' = _
        rw [nmLHS_step l rest st st' hs]
        exact hI)
      (splitNl s) initState stf hInv0 hrun
    show (stf.done ++ closeCur stf.cur).map nmOf = _
    rw [← hfin]
    unfold nmLHS
    simp only [List.map_append, closeCur_map_nmOf]
    cases hcur : stf.cur with
    | none => simp [nmCurPart, sectionsGo]
    | some f => simp [nmCurPart, sectionsGo, nmFold]

/-! ### Guard helpers -/

theorem hasPre_head_false (a b : Nat) (p t : GoStr) (hne : a ≠ b) :
    bytesHasPre (a :: p) (b :: t) = false := by
  have hb : (a == b) = false := beq_eq_false_iff_ne.mpr hne
  simp [bytesHasPre, hb]

theorem cons_ne_cons_of_head (a b : Nat) (t q : GoStr) (h : a ≠ b) : (a :: t) ≠ (b :: q) := by
  intro he
  exact h (List.cons.inj he).1

/-! ### C10 — `--- `/`+++ ` lines are file-header name lines, even inside
an active hunk -/

/-- C10: a physical line beginning with `--- ` or `+++ ` (other than the
exact `/dev/null` forms) is handled by the file-header cases — it only
overwrites the current file's OrigName/NewName via the filename decoder
and advances the position counter — and is never classified as a
Removed/Added content line of the hunk, however the in-hunk flag stands. -/
theorem c10_name_lines_never_content (st : ParseState) (f : DiffFile) (l : GoStr)
    (rest : List GoStr) (hcur : st.cur = some f) :
    (bytesHasPre (gs "--- ") l = true → l ≠ gs "--- /dev/null" →
      stepLine l rest st =
        .ok { st with cur := some { f with origName := parseFileName (l.drop 4) },
                      diffPosCount := wrap64 (st.diffPosCount + 1) }) ∧
    (bytesHasPre (gs "+++ ") l = true → l ≠ gs "+++ /dev/null" →
      stepLine l rest st =
        .ok { st with cur := some { f with newName := parseFileName (l.drop 4) },
                      diffPosCount := wrap64 (st.diffPosCount + 1) }) := by
  constructor
  · intro hpre hne3
    obtain ⟨t, rfl⟩ := (hasPre_iff _ _).mp hpre
    rw [gsMinus] at hne3 ⊢
    simp only [List.cons_append, List.nil_append] at hne3 ⊢
    have h1 : bytesHasPre (gs "diff ") (45 :: 45 :: 45 :: 32 :: t) = false := by
      rw [gsDiff]; exact hasPre_head_false _ _ _ _ (by decide)
    have h2 : (45 :: 45 :: 45 :: 32 :: t) ≠ gs "+++ /dev/null" := by
      rw [gsPlusDev]; exact cons_ne_cons_of_head _ _ _ _ (by decide)
    have h4 : bytesHasPre (gs "similarity index ") (45 :: 45 :: 45 :: 32 :: t) = false := by
      rw [gsSim]; exact hasPre_head_false _ _ _ _ (by decide)
    have h5 : bytesHasPre (gs "--- ") (45 :: 45 :: 45 :: 32 :: t) = true := by
      rw [gsMinus]
      exact (hasPre_iff _ _).mpr ⟨t, rfl⟩
    rw [stepLine_eq_orig _ rest st h1 h2 hne3 h4 h5, hcur]
  · intro hpre hne2
    obtain ⟨t, rfl⟩ := (hasPre_iff _ _).mp hpre
    rw [gsPlus] at hne2 ⊢
    simp only [List.cons_append, List.nil_append] at hne2 ⊢
    have h1 : bytesHasPre (gs "diff ") (43 :: 43 :: 43 :: 32 :: t) = false := by
      rw [gsDiff]; exact hasPre_head_false _ _ _ _ (by decide)
    have h3 : (43 :: 43 :: 43 :: 32 :: t) ≠ gs "--- /dev/null" := by
      rw [gsMinusDev]; exact cons_ne_cons_of_head _ _ _ _ (by decide)
    have h4 : bytesHasPre (gs "similarity index ") (43 :: 43 :: 43 :: 32 :: t) = false := by
      rw [gsSim]; exact hasPre_head_false _ _ _ _ (by decide)
    have h5 : bytesHasPre (gs "--- ") (43 :: 43 :: 43 :: 32 :: t) = false := by
      rw [gsMinus]; exact hasPre_head_false _ _ _ _ (by decide)
    have h6 : bytesHasPre (gs "+++ ") (43 :: 43 :: 43 :: 32 :: t) = true := by
      rw [gsPlus]
      exact (hasPre_iff _ _).mpr ⟨t, rfl⟩
    rw [stepLine_eq_new _ rest st h1 hne2 h3 h4 h5 h6, hcur]

/-- C10 witness: inside an active hunk, a `--- ` line still only
overwrites the current file's OrigName. -/
theorem c10_witness :
    (stateAfter [gs "diff a", gs "@@ -1 +1 @@"]).cur =
        some (curOrDefault (stateAfter [gs "diff a", gs "@@ -1 +1 @@"])) ∧
    bytesHasPre (gs "--- ") (gs "--- b/zz") = true ∧
    gs "--- b/zz" ≠ gs "--- /dev/null" ∧
    (stateAfter [gs "diff a", gs "@@ -1 +1 @@"]).inHunk = true ∧
    stepLine (gs "--- b/zz") [] (stateAfter [gs "diff a", gs "@@ -1 +1 @@"]) =
      .ok { stateAfter [gs "diff a", gs "@@ -1 +1 @@"] with
            cur := some { curOrDefault (stateAfter [gs "diff a", gs "@@ -1 +1 @@"]) with
                          origName := parseFileName ((gs "--- b/zz").drop 4) },
            diffPosCount :=
              wrap64 ((stateAfter [gs "diff a", gs "@@ -1 +1 @@"]).diffPosCount + 1) } := by
  refine ⟨by decide, by decide, by decide, by decide, ?_⟩
  exact (c10_name_lines_never_content (stateAfter [gs "diff a", gs "@@ -1 +1 @@"])
    (curOrDefault (stateAfter [gs "diff a", gs "@@ -1 +1 @@"])) (gs "--- b/zz") []
    (by decide)).1 (by decide) (by decide)

/-! ### C1 — parsing a section with no `diff ` line -/

/-- C1 counterexample: on the exact claimed input, which contains no
`diff ` line, `Parse` dereferences the nil `file` pointer (a runtime
panic) instead of returning a one-file `Diff`. -/
theorem c1_counterexample :
    Parse (gs "--- /dev/null\n+++ b/file4\n@@ -0,0 +1,1 @@\n+hello\n") = PResult.crash ∧
    (Parse (gs "--- /dev/null\n+++ b/file4\n@@ -0,0 +1,1 @@\n+hello\n")).isOk = false := by
  constructor
  · decide
  · decide

/-- C1 amended: with a preceding `diff ` header line the same section
parses to exactly one file in mode New with an empty OrigName and
NewName `file4`. -/
theorem c1_amended :
    (Parse (gs "diff --git a/file4 b/file4\n--- /dev/null\n+++ b/file4\n@@ -0,0 +1,1 @@\n+hello\n")).isOk = true ∧
    (filesOf (Parse (gs "diff --git a/file4 b/file4\n--- /dev/null\n+++ b/file4\n@@ -0,0 +1,1 @@\n+hello\n"))).length = 1 ∧
    (fileAt (Parse (gs "diff --git a/file4 b/file4\n--- /dev/null\n+++ b/file4\n@@ -0,0 +1,1 @@\n+hello\n")) 0).mode = FileMode.new ∧
    (fileAt (Parse (gs "diff --git a/file4 b/file4\n--- /dev/null\n+++ b/file4\n@@ -0,0 +1,1 @@\n+hello\n")) 0).origName = [] ∧
    (fileAt (Parse (gs "diff --git a/file4 b/file4\n--- /dev/null\n+++ b/file4\n@@ -0,0 +1,1 @@\n+hello\n")) 0).newName = gs "file4" := by
  refine ⟨by decide, by decide, by decide, by decide, by decide⟩

/-! ### C2 — omitted hunk counts default to the start values, not 1 -/

/-- C2: on `@@ -5 +3 @@` (both counts omitted) the code records
OrigRange.Length = 5 and NewRange.Length = 3 — the omitted count defaults
to the start value (`b := a`, `d := c`), not to 1 as the unified-diff
format prescribes. -/
theorem c2_omitted_count_defaults_to_start :
    (Parse (gs "diff a\n@@ -5 +3 @@\n")).isOk = true ∧
    (hunkAt (Parse (gs "diff a\n@@ -5 +3 @@\n")) 0 0).origRange.start = 5 ∧
    (hunkAt (Parse (gs "diff a\n@@ -5 +3 @@\n")) 0 0).origRange.length = 5 ∧
    (hunkAt (Parse (gs "diff a\n@@ -5 +3 @@\n")) 0 0).newRange.start = 3 ∧
    (hunkAt (Parse (gs "diff a\n@@ -5 +3 @@\n")) 0 0).newRange.length = 3 := by
  refine ⟨by decide, by decide, by decide, by decide, by decide⟩

/-! ### C3 — positions do not restart at second and later hunks -/

/-- C3 counterexample: in the second hunk of a file, the single content
line has Position 3, not 1 — the position counter is reset only at the
first hunk of each file. -/
theorem c3_counterexample :
    (Parse (gs "diff a\n@@ -1,1 +1,1 @@\n x\n@@ -3,1 +3,1 @@\n y\n")).isOk = true ∧
    ((hunkAt (Parse (gs "diff a\n@@ -1,1 +1,1 @@\n x\n@@ -3,1 +3,1 @@\n y\n")) 0 1).wholeRange.lines.map
      (fun dl => dl.position)) = [3] ∧
    ((hunkAt (Parse (gs "diff a\n@@ -1,1 +1,1 @@\n x\n@@ -3,1 +3,1 @@\n y\n")) 0 1).wholeRange.lines.map
      (fun dl => dl.position)) ≠ [1] := by
  refine ⟨by decide, by decide, by decide⟩

/-! ### C6 — mode/name invariant counterexample -/

/-- C6 counterexample: a bare `similarity index` line yields a file in
mode Renamed whose OrigName and NewName are both empty (neither
non-empty nor distinct), while `Parse` succeeds. -/
theorem c6_counterexample :
    (Parse (gs "diff a\nsimilarity index 100%\n")).isOk = true ∧
    (fileAt (Parse (gs "diff a\nsimilarity index 100%\n")) 0).mode = FileMode.renamed ∧
    (fileAt (Parse (gs "diff a\nsimilarity index 100%\n")) 0).origName = [] ∧
    (fileAt (Parse (gs "diff a\nsimilarity index 100%\n")) 0).newName = [] := by
  refine ⟨by decide, by decide, by decide, by decide⟩

/-! ### C7 — binary marker has no `/dev/null` special case -/

/-- C7 counterexample: `Binary files /dev/null and b/img.png differ`
yields mode Modified with OrigName literally `/dev/null` — not mode New
with an empty OrigName as claimed. -/
theorem c7_counterexample :
    (Parse (gs "diff a\nBinary files /dev/null and b/img.png differ\n")).isOk = true ∧
    (fileAt (Parse (gs "diff a\nBinary files /dev/null and b/img.png differ\n")) 0).mode =
      FileMode.modified ∧
    (fileAt (Parse (gs "diff a\nBinary files /dev/null and b/img.png differ\n")) 0).origName =
      gs "/dev/null" ∧
    (fileAt (Parse (gs "diff a\nBinary files /dev/null and b/img.png differ\n")) 0).origName ≠ [] := by
  refine ⟨by decide, by decide, by decide, by decide⟩

/-! ### C3 — positions of a hunk's content lines -/

/-- C3 amended: within every hunk the Position values of the content
lines (in physical order) are strictly increasing and at least 1, for any
input of at most `maxI64` lines; the counter restarts only at each file's
first hunk, so later hunks continue the numbering instead of restarting
at 1. -/
theorem c3_positions (s : GoStr) (d : Diff)
    (hN : ((splitNl s).length : Int) ≤ maxI64)
    (hp : Parse s = .ok d) :
    ∀ f ∈ d.files, ∀ h ∈ f.hunks,
      List.Chain' (fun a b => a.position < b.position) h.wholeRange.lines ∧
        ∀ x ∈ h.wholeRange.lines, 1 ≤ x.position := by
  intro f hf h hh
  exact (parse_goodHunks s d hN hp f hf h hh).2.2.2

/-- C3 witness: the amended statement applied to the spec's scenario
input, whose first hunk has contiguous positions 1..5. -/
theorem c3_witness :
    ((splitNl (gs "diff a\n@@ -1,4 +1,4 @@\n+add a line\n some\n lines\n-in\n file1\n")).length : Int) ≤ maxI64 ∧
    Parse (gs "diff a\n@@ -1,4 +1,4 @@\n+add a line\n some\n lines\n-in\n file1\n") =
      .ok (getOkD (Parse (gs "diff a\n@@ -1,4 +1,4 @@\n+add a line\n some\n lines\n-in\n file1\n"))) ∧
    List.Chain' (fun a b => a.position < b.position)
      (hunkAt (Parse (gs "diff a\n@@ -1,4 +1,4 @@\n+add a line\n some\n lines\n-in\n file1\n")) 0 0).wholeRange.lines ∧
    (∀ x ∈ (hunkAt (Parse (gs "diff a\n@@ -1,4 +1,4 @@\n+add a line\n some\n lines\n-in\n file1\n")) 0 0).wholeRange.lines,
      1 ≤ x.position) ∧
    ((hunkAt (Parse (gs "diff a\n@@ -1,4 +1,4 @@\n+add a line\n some\n lines\n-in\n file1\n")) 0 0).wholeRange.lines.map
      (fun dl => dl.position)) = [1, 2, 3, 4, 5] := by
  have happ := c3_positions (gs "diff a\n@@ -1,4 +1,4 @@\n+add a line\n some\n lines\n-in\n file1\n")
    (getOkD (Parse (gs "diff a\n@@ -1,4 +1,4 @@\n+add a line\n some\n lines\n-in\n file1\n")))
    (by decide) rfl
    (fileAt (Parse (gs "diff a\n@@ -1,4 +1,4 @@\n+add a line\n some\n lines\n-in\n file1\n")) 0)
    (by decide)
    (hunkAt (Parse (gs "diff a\n@@ -1,4 +1,4 @@\n+add a line\n some\n lines\n-in\n file1\n")) 0 0)
    (by decide)
  exact ⟨by decide, rfl, happ.1, happ.2, by decide⟩

/-! ### C4 — number sequences of the two ranges -/

/-- C4 counterexample: with the new-side start `9223372036854775807` and
two added lines, the recorded numbers are `[maxI64, minI64]` — the
second wraps around `int64`, so the sequence is not strictly
increasing. -/
theorem c4_counterexample :
    (Parse (gs "diff a\n@@ -1 +9223372036854775807 @@\n+a\n+b\n")).isOk = true ∧
    ((hunkAt (Parse (gs "diff a\n@@ -1 +9223372036854775807 @@\n+a\n+b\n")) 0 0).newRange.lines.map
      (fun dl => dl.number)) = [maxI64, minI64] ∧
    ¬ maxI64 < minI64 := by
  refine ⟨by decide, by decide, by decide⟩

/-- C4 amended: every line's number is `wrap64 (start + index)`; whenever
`start + count` does not exceed `maxI64` (no `int64` overflow), the
numbers are strictly increasing and the first equals the range's start —
on each of the two sides. -/
theorem c4_numbers (s : GoStr) (d : Diff)
    (hN : ((splitNl s).length : Int) ≤ maxI64)
    (hp : Parse s = .ok d) :
    ∀ f ∈ d.files, ∀ h ∈ f.hunks,
      ((∀ i (hi : i < h.newRange.lines.length),
          (h.newRange.lines.get ⟨i, hi⟩).number = wrap64 (h.newRange.start + i)) ∧
        (h.newRange.start + (h.newRange.lines.length : Int) ≤ maxI64 →
          List.Chain' (fun a b => a.number < b.number) h.newRange.lines ∧
            ∀ x ∈ h.newRange.lines.head?, x.number = h.newRange.start)) ∧
      ((∀ i (hi : i < h.origRange.lines.length),
          (h.origRange.lines.get ⟨i, hi⟩).number = wrap64 (h.origRange.start + i)) ∧
        (h.origRange.start + (h.origRange.lines.length : Int) ≤ maxI64 →
          List.Chain' (fun a b => a.number < b.number) h.origRange.lines ∧
            ∀ x ∈ h.origRange.lines.head?, x.number = h.origRange.start)) := by
  intro f hf h hh
  obtain ⟨⟨ho0, ho1, hn0, hn1⟩, hnorig, hnnew, _⟩ := parse_goodHunks s d hN hp f hf h hh
  exact ⟨⟨numberedFrom_get _ _ hnnew, fun hb => numberedFrom_chain _ _ hnnew hn0 hb⟩,
    ⟨numberedFrom_get _ _ hnorig, fun hb => numberedFrom_chain _ _ hnorig ho0 hb⟩⟩

/-- C4 witness: the amended statement applied to a small diff without
overflow, where both sides' numbers are strictly increasing from the
declared starts. -/
theorem c4_witness :
    ((splitNl (gs "diff a\n@@ -1,2 +7,2 @@\n x\n+y\n-z\n")).length : Int) ≤ maxI64 ∧
    Parse (gs "diff a\n@@ -1,2 +7,2 @@\n x\n+y\n-z\n") =
      .ok (getOkD (Parse (gs "diff a\n@@ -1,2 +7,2 @@\n x\n+y\n-z\n"))) ∧
    List.Chain' (fun a b => a.number < b.number)
      (hunkAt (Parse (gs "diff a\n@@ -1,2 +7,2 @@\n x\n+y\n-z\n")) 0 0).newRange.lines ∧
    (∀ x ∈ (hunkAt (Parse (gs "diff a\n@@ -1,2 +7,2 @@\n x\n+y\n-z\n")) 0 0).newRange.lines.head?,
      x.number = (hunkAt (Parse (gs "diff a\n@@ -1,2 +7,2 @@\n x\n+y\n-z\n")) 0 0).newRange.start) ∧
    List.Chain' (fun a b => a.number < b.number)
      (hunkAt (Parse (gs "diff a\n@@ -1,2 +7,2 @@\n x\n+y\n-z\n")) 0 0).origRange.lines := by
  have happ := c4_numbers (gs "diff a\n@@ -1,2 +7,2 @@\n x\n+y\n-z\n")
    (getOkD (Parse (gs "diff a\n@@ -1,2 +7,2 @@\n x\n+y\n-z\n")))
    (by decide) rfl
    (fileAt (Parse (gs "diff a\n@@ -1,2 +7,2 @@\n x\n+y\n-z\n")) 0)
    (by decide)
    (hunkAt (Parse (gs "diff a\n@@ -1,2 +7,2 @@\n x\n+y\n-z\n")) 0 0)
    (by decide)
  have hnew := happ.1.2 (by decide)
  have horig := happ.2.2 (by decide)
  exact ⟨by decide, rfl, hnew.1, hnew.2, horig.1⟩

/-! ### C5 — unrecognized line inside an active hunk -/

/-- C5 counterexample: while a hunk is active, the line `diff b` begins
with `d` — not space, `+` or `-` — and is not the no-newline sentinel,
yet `Parse` succeeds: the structural-marker cases are tried before the
in-hunk classifier, so such lines escape it. -/
theorem c5_counterexample :
    (stateAfter [gs "diff a", gs "@@ -1 +1 @@"]).inHunk = true ∧
    (gs "diff b").head? = some 100 ∧
    gs "diff b" ≠ gs "\\ No newline at end of file" ∧
    (Parse (gs "diff a\n@@ -1 +1 @@\ndiff b\n")).isOk = true := by
  refine ⟨by decide, by decide, by decide, by decide⟩

/-- C5 amended: a line inside an active hunk whose first byte is not
space, `+` or `-` aborts the whole parse with the `could not parse line
mode` error, provided it is also not captured by any earlier structural
case (`diff `, `similarity index `, `rename from `/`rename to `,
`Binary files `, `@@ `) and is not the no-newline sentinel; nothing after
it is processed. -/
theorem c5_amended (c : Nat) (t : GoStr) (rest : List GoStr) (st : ParseState)
    (hin : st.inHunk = true)
    (hc32 : c ≠ 32) (hc43 : c ≠ 43) (hc45 : c ≠ 45)
    (hd : bytesHasPre (gs "diff ") (c :: t) = false)
    (hsim : bytesHasPre (gs "similarity index ") (c :: t) = false)
    (hren1 : bytesHasPre (gs "rename from ") (c :: t) = false)
    (hren2 : bytesHasPre (gs "rename to ") (c :: t) = false)
    (hbin : bytesHasPre (gs "Binary files ") (c :: t) = false)
    (hat : bytesHasPre (gs "@@ ") (c :: t) = false)
    (hsent : (c :: t) ≠ gs "\\ No newline at end of file") :
    parseLinesAux ((c :: t) :: rest) st =
      .err (gs "could not parse line mode for line: \"" ++ (c :: t) ++ [34]) := by
  have h2 : (c :: t) ≠ gs "+++ /dev/null" := by
    rw [gsPlusDev]; exact cons_ne_cons_of_head _ _ _ _ hc43
  have h3 : (c :: t) ≠ gs "--- /dev/null" := by
    rw [gsMinusDev]; exact cons_ne_cons_of_head _ _ _ _ hc45
  have h5 : bytesHasPre (gs "--- ") (c :: t) = false := by
    rw [gsMinus]; exact hasPre_head_false _ _ _ _ (fun he => hc45 he.symm)
  have h6 : bytesHasPre (gs "+++ ") (c :: t) = false := by
    rw [gsPlus]; exact hasPre_head_false _ _ _ _ (fun he => hc43 he.symm)
  have hsrc : isSourceLine (c :: t) = true := by
    unfold isSourceLine
    rw [if_neg hsent]
    rw [if_neg (by simp)]
    rw [if_neg ?hcond]
    case hcond =>
      rintro ⟨-, h | h⟩
      · rw [List.take_succ_cons] at h
        exact hc45 (List.cons.inj h).1
      · rw [List.take_succ_cons] at h
        exact hc43 (List.cons.inj h).1
  have hlm : lineMode (c :: t) = none := by
    unfold lineMode
    split
    · rename_i heq
      exact absurd (List.cons.inj heq).1 hc32
    · rename_i heq
      exact absurd (List.cons.inj heq).1 hc43
    · rename_i heq
      exact absurd (List.cons.inj heq).1 hc45
    · rfl
  have hstep := stepLine_eq_content (c :: t) rest st hd h2 h3 hsim h5 h6 hren1 hren2 hbin hat
    (by rw [hin, hsrc]; rfl)
  simp only [parseLinesAux, hstep, hlm]

/-- C5 witness: the amended theorem applied inside an active hunk to the
line `xoo`, which aborts the parse with the line-mode error. -/
theorem c5_witness :
    (stateAfter [gs "diff a", gs "@@ -1 +1 @@"]).inHunk = true ∧
    parseLinesAux [120 :: gs "oo"] (stateAfter [gs "diff a", gs "@@ -1 +1 @@"]) =
      .err (gs "could not parse line mode for line: \"" ++ (120 :: gs "oo") ++ [34]) := by
  refine ⟨by decide, ?_⟩
  exact c5_amended 120 (gs "oo") [] (stateAfter [gs "diff a", gs "@@ -1 +1 @@"])
    (by decide) (by decide) (by decide) (by decide) (by decide) (by decide)
    (by decide) (by decide) (by decide) (by decide) (by decide)

/-! ### C7 — `Binary files A and B differ` lines -/

/-- C7 amended: a `Binary files A and B differ` line that splits into
exactly two tokens always sets the mode to `modified` and records both
decoded names — there is no `/dev/null` special-casing in this branch,
even when `A` or `B` is `/dev/null`. -/
theorem c7_amended (t : GoStr) (rest : List GoStr) (st : ParseState) (f : DiffFile)
    (x y : GoStr)
    (hcur : st.cur = some f)
    (hsplit : splitSub (gs " and ") (trimSufB (gs " differ") t) = [x, y]) :
    stepLine (gs "Binary files " ++ t) rest st =
      .ok { st with
              cur := some { f with mode := FileMode.modified,
                                   origName := parseFileName x,
                                   newName := parseFileName y },
              diffPosCount := wrap64 (st.diffPosCount + 1) } := by
  have hl : gs "Binary files " ++ t = 66 :: (gs "inary files " ++ t) := rfl
  rw [hl]
  have h1 : bytesHasPre (gs "diff ") (66 :: (gs "inary files " ++ t)) = false := by
    rw [gsDiff]; exact hasPre_head_false _ _ _ _ (by decide)
  have h2 : (66 :: (gs "inary files " ++ t)) ≠ gs "+++ /dev/null" := by
    rw [gsPlusDev]; exact cons_ne_cons_of_head _ _ _ _ (by decide)
  have h3 : (66 :: (gs "inary files " ++ t)) ≠ gs "--- /dev/null" := by
    rw [gsMinusDev]; exact cons_ne_cons_of_head _ _ _ _ (by decide)
  have h4 : bytesHasPre (gs "similarity index ") (66 :: (gs "inary files " ++ t)) = false := by
    rw [gsSim]; exact hasPre_head_false _ _ _ _ (by decide)
  have h5 : bytesHasPre (gs "--- ") (66 :: (gs "inary files " ++ t)) = false := by
    rw [gsMinus]; exact hasPre_head_false _ _ _ _ (by decide)
  have h6 : bytesHasPre (gs "+++ ") (66 :: (gs "inary files " ++ t)) = false := by
    rw [gsPlus]; exact hasPre_head_false _ _ _ _ (by decide)
  have h7 : bytesHasPre (gs "rename from ") (66 :: (gs "inary files " ++ t)) = false := by
    rw [gsRenFrom]; exact hasPre_head_false _ _ _ _ (by decide)
  have h8 : bytesHasPre (gs "rename to ") (66 :: (gs "inary files " ++ t)) = false := by
    rw [gsRenTo]; exact hasPre_head_false _ _ _ _ (by decide)
  have h9 : bytesHasPre (gs "Binary files ") (66 :: (gs "inary files " ++ t)) = true := by
    rw [← hl]; exact (hasPre_iff _ _).mpr ⟨t, rfl⟩
  rw [stepLine_eq_bin _ rest st h1 h2 h3 h4 h5 h6 h7 h8 h9]
  have hdrop : (66 :: (gs "inary files " ++ t)).drop 13 = t := rfl
  simp only [hcur, hdrop, hsplit]

/-- C7 witness: the amended theorem applied to
`Binary files /dev/null and b/file differ` — even with `/dev/null` on the
old side the mode becomes `modified` and both names are recorded, so the
original claim's New/Deleted behaviour does not happen. -/
theorem c7_witness :
    (stateAfter [gs "diff a"]).cur = some (curOrDefault (stateAfter [gs "diff a"])) ∧
    splitSub (gs " and ") (trimSufB (gs " differ") (gs "/dev/null and b/file differ")) =
      [gs "/dev/null", gs "b/file"] ∧
    stepLine (gs "Binary files " ++ gs "/dev/null and b/file differ") []
        (stateAfter [gs "diff a"]) =
      .ok { stateAfter [gs "diff a"] with
              cur := some { curOrDefault (stateAfter [gs "diff a"]) with
                              mode := FileMode.modified,
                              origName := parseFileName (gs "/dev/null"),
                              newName := parseFileName (gs "b/file") },
              diffPosCount := wrap64 ((stateAfter [gs "diff a"]).diffPosCount + 1) } := by
  refine ⟨by decide, by decide, ?_⟩
  exact c7_amended (gs "/dev/null and b/file differ") [] (stateAfter [gs "diff a"])
    (curOrDefault (stateAfter [gs "diff a"])) (gs "/dev/null") (gs "b/file")
    (by decide) (by decide)

/-! ### C6 — mode/name characterization lemmas and amended invariant -/

theorem nmStep_newName (l : GoStr) (h : setsNewName l = false)
    (t : FileMode × GoStr × GoStr) : (nmStep l t).2.2 = t.2.2 := by
  unfold nmStep
  split_ifs with h1 h2 h3 h4 h5 h6 h7 h8
  · rfl
  · rfl
  · rfl
  · rfl
  · simp [setsNewName, h5, h1] at h
  · rfl
  · simp [setsNewName, h7] at h
  · simp [setsNewName, h8] at h
  · rfl

theorem nmStep_origName (l : GoStr) (h : setsOrigName l = false)
    (t : FileMode × GoStr × GoStr) : (nmStep l t).2.1 = t.2.1 := by
  unfold nmStep
  split_ifs with h1 h2 h3 h4 h5 h6 h7 h8
  · rfl
  · rfl
  · rfl
  · simp [setsOrigName, h4, h2] at h
  · rfl
  · simp [setsOrigName, h6] at h
  · rfl
  · simp [setsOrigName, h8] at h
  · rfl

theorem nmFold_newName (ls : List GoStr) (h : ∀ l ∈ ls, setsNewName l = false) :
    ∀ t, (nmFold ls t).2.2 = t.2.2 := by
  induction ls with
  | nil => intro t; rfl
  | cons a r ih =>
    intro t
    have ha := h a (List.mem_cons_self a r)
    have hr : ∀ l ∈ r, setsNewName l = false := fun l hl => h l (List.mem_cons_of_mem a hl)
    show (nmFold r (nmStep a t)).2.2 = t.2.2
    rw [ih hr, nmStep_newName a ha]

theorem nmFold_origName (ls : List GoStr) (h : ∀ l ∈ ls, setsOrigName l = false) :
    ∀ t, (nmFold ls t).2.1 = t.2.1 := by
  induction ls with
  | nil => intro t; rfl
  | cons a r ih =>
    intro t
    have ha := h a (List.mem_cons_self a r)
    have hr : ∀ l ∈ r, setsOrigName l = false := fun l hl => h l (List.mem_cons_of_mem a hl)
    show (nmFold r (nmStep a t)).2.1 = t.2.1
    rw [ih hr, nmStep_origName a ha]

/-- C6 amended: file `i` of a successful parse takes its mode and names
from folding the header-marker effects of its input section, in order,
over `(Modified, empty, empty)`; in particular a name stays empty
whenever no line of the section overwrites it.  The mode does not
constrain the names by itself — `+++ /dev/null` and `--- /dev/null` set
Deleted/New without clearing the other side's name, and `similarity
index` sets Renamed without touching either name. -/
theorem c6_amended (s : GoStr) (d : Diff) (hp : Parse s = .ok d) :
    d.files.length = (sectionsGo (splitNl s)).length ∧
    ∀ i (hi : i < d.files.length) (hi2 : i < (sectionsGo (splitNl s)).length),
      nmOf (d.files.get ⟨i, hi⟩) =
        nmFold ((sectionsGo (splitNl s)).get ⟨i, hi2⟩) nm0 ∧
      ((∀ l ∈ (sectionsGo (splitNl s)).get ⟨i, hi2⟩, setsNewName l = false) →
        (d.files.get ⟨i, hi⟩).newName = []) ∧
      ((∀ l ∈ (sectionsGo (splitNl s)).get ⟨i, hi2⟩, setsOrigName l = false) →
        (d.files.get ⟨i, hi⟩).origName = []) := by
  have hmap := parse_nm s d hp
  have hlen : d.files.length = (sectionsGo (splitNl s)).length := by
    have h := congrArg List.length hmap
    simpa using h
  refine ⟨hlen, ?_⟩
  intro i hi hi2
  have hb1 : i < (d.files.map nmOf).length := by simpa using hi
  have hb2 : i < ((sectionsGo (splitNl s)).map (fun sec => nmFold sec nm0)).length := by
    simpa using hi2
  have hg : (d.files.map nmOf).get ⟨i, hb1⟩ =
      ((sectionsGo (splitNl s)).map (fun sec => nmFold sec nm0)).get ⟨i, hb2⟩ :=
    List.get_of_eq hmap ⟨i, hb1⟩
  simp only [List.get_eq_getElem, List.getElem_map] at hg
  have hg2 : nmOf (d.files.get ⟨i, hi⟩) =
      nmFold ((sectionsGo (splitNl s)).get ⟨i, hi2⟩) nm0 := by
    simpa only [List.get_eq_getElem] using hg
  refine ⟨hg2, ?_, ?_⟩
  · intro hnn
    have h2 := congrArg (fun (t : FileMode × GoStr × GoStr) => t.2.2) hg2
    simp only at h2
    rw [nmFold_newName _ hnn] at h2
    exact h2
  · intro hon
    have h2 := congrArg (fun (t : FileMode × GoStr × GoStr) => t.2.1) hg2
    simp only at h2
    rw [nmFold_origName _ hon] at h2
    exact h2

/-- C6 witness: the amended theorem applied to a diff whose only header
marker is a `similarity index` line — the file's triple is the fold of
its section and both names stay empty while the mode is Renamed. -/
theorem c6_witness :
    (getOkD (Parse (gs "diff a\nsimilarity index 100%\n"))).files.length =
      (sectionsGo (splitNl (gs "diff a\nsimilarity index 100%\n"))).length ∧
    nmOf ((getOkD (Parse (gs "diff a\nsimilarity index 100%\n"))).files.getD 0 defFile) =
      nmFold ((sectionsGo (splitNl (gs "diff a\nsimilarity index 100%\n"))).getD 0 []) nm0 ∧
    ((getOkD (Parse (gs "diff a\nsimilarity index 100%\n"))).files.getD 0 defFile).newName = [] ∧
    ((getOkD (Parse (gs "diff a\nsimilarity index 100%\n"))).files.getD 0 defFile).origName = [] := by
  obtain ⟨hlen, hall⟩ := c6_amended (gs "diff a\nsimilarity index 100%\n")
    (getOkD (Parse (gs "diff a\nsimilarity index 100%\n"))) rfl
  obtain ⟨h1, h2, h3⟩ := hall 0 (by decide) (by decide)
  exact ⟨hlen, h1, h2 (by decide), h3 (by decide)⟩

/-! ### C8 — the `Changed` query -/

theorem lookupC_mapAppend (m : List (GoStr × List Int)) (kk k : GoStr) (v : Int) :
    lookupC (mapAppend m kk v) k =
      lookupC m k ++ (if kk = k then [v] else []) := by
  induction m with
  | nil =>
    by_cases h : kk = k
    · subst h; simp [mapAppend, lookupC]
    · simp [mapAppend, lookupC, h, Ne.symm h]
  | cons p r ih =>
    obtain ⟨kp, vs⟩ := p
    by_cases hp : kp = kk
    · subst hp
      by_cases hk : kp = k
      · subst hk; simp [mapAppend, lookupC]
      · simp [mapAppend, lookupC, hk]
    · by_cases hk : kp = k
      · subst hk
        have hne : ¬ kk = kp := fun he => hp he.symm
        simp [mapAppend, lookupC, hp, hne]
      · simp [mapAppend, lookupC, hp, hk, ih]

theorem changedLineFold_lookup (name : GoStr) (lines : List DiffLine)
    (m : List (GoStr × List Int)) (k : GoStr) :
    lookupC (changedLineFold name m lines) k =
      lookupC m k ++
        (if name = k then
          ((lines.filter (fun dl => dl.mode = DiffLineMode.added)).map
            (fun dl => dl.number))
         else []) := by
  induction lines generalizing m with
  | nil => by_cases h : name = k <;> simp [changedLineFold, h]
  | cons dl r ih =>
    by_cases hm : dl.mode = DiffLineMode.added
    · have hstep : changedLineFold name m (dl :: r) =
          changedLineFold name (mapAppend m name dl.number) r := by
        simp [changedLineFold, hm]
      rw [hstep, ih, lookupC_mapAppend]
      by_cases hk : name = k
      · simp [hk, hm, List.filter_cons, List.append_assoc]
      · simp [hk, hm, List.filter_cons]
    · have hstep : changedLineFold name m (dl :: r) = changedLineFold name m r := by
        simp [changedLineFold, hm]
      rw [hstep, ih]
      by_cases hk : name = k
      · simp [hk, hm, List.filter_cons]
      · simp [hk]

theorem changedHunkFold_lookup (name : GoStr) (hunks : List DiffHunk)
    (m : List (GoStr × List Int)) (k : GoStr) :
    lookupC (changedHunkFold name m hunks) k =
      lookupC m k ++
        (if name = k then
          catMap (fun h =>
            ((h.newRange.lines.filter (fun dl => dl.mode = DiffLineMode.added)).map
              (fun dl => dl.number))) hunks
         else []) := by
  induction hunks generalizing m with
  | nil => by_cases h : name = k <;> simp [changedHunkFold, catMap, h]
  | cons h r ih =>
    have hstep : changedHunkFold name m (h :: r) =
        changedHunkFold name (changedLineFold name m h.newRange.lines) r := rfl
    rw [hstep, ih, changedLineFold_lookup]
    by_cases hk : name = k
    · simp [hk, catMap, List.append_assoc]
    · simp [hk]

theorem changed_foldl_lookup (fs : List DiffFile) (m : List (GoStr × List Int)) (k : GoStr) :
    lookupC (fs.foldl (fun m f =>
        if f.mode = FileMode.deleted then m
        else changedHunkFold f.newName m f.hunks) m) k =
      lookupC m k ++
        catMap (fun f =>
          if f.mode ≠ FileMode.deleted ∧ f.newName = k then
            catMap (fun h =>
              ((h.newRange.lines.filter (fun dl => dl.mode = DiffLineMode.added)).map
                (fun dl => dl.number))) f.hunks
          else []) fs := by
  induction fs generalizing m with
  | nil => simp [catMap]
  | cons f r ih =>
    by_cases hdel : f.mode = FileMode.deleted
    · have hstep : (f :: r).foldl (fun m f =>
          if f.mode = FileMode.deleted then m
          else changedHunkFold f.newName m f.hunks) m =
          r.foldl (fun m f =>
            if f.mode = FileMode.deleted then m
            else changedHunkFold f.newName m f.hunks) m := by
        simp [hdel]
      rw [hstep, ih]
      simp [catMap, hdel]
    · have hstep : (f :: r).foldl (fun m f =>
          if f.mode = FileMode.deleted then m
          else changedHunkFold f.newName m f.hunks) m =
          r.foldl (fun m f =>
            if f.mode = FileMode.deleted then m
            else changedHunkFold f.newName m f.hunks)
            (changedHunkFold f.newName m f.hunks) := by
        simp [hdel]
      rw [hstep, ih, changedHunkFold_lookup]
      by_cases hk : f.newName = k
      · simp [catMap, hdel, hk, List.append_assoc]
      · simp [catMap, hdel, hk]

/-- C8: for every parsed diff and key, looking the key up in the map
built by `Changed` yields exactly the spec-side answer — the new-side
numbers of the Added lines of the non-deleted files named by the key, in
order; deleted files contribute nothing. -/
theorem c8_changed_matches_spec (d : Diff) (k : GoStr) :
    lookupC (Changed d) k = changedSpec d k := by
  unfold Changed changedSpec
  rw [changed_foldl_lookup]
  simp [lookupC]

/-! ### C9 — filename decoding fails soft and never aborts the parse -/

theorem asciiClean_cons (c : Nat) (u : GoStr) (h : asciiClean (c :: u) = true) :
    ¬ c = 34 ∧ ¬ c = 10 ∧ ¬ c = 92 ∧ ¬ (0x80 ≤ c) ∧ asciiClean u = true := by
  have h2 := h
  simp only [asciiClean, List.all_cons, Bool.and_eq_true, Bool.not_eq_true',
    decide_eq_false_iff_not, decide_eq_true_eq] at h2
  obtain ⟨⟨⟨⟨hlt, h34⟩, h10⟩, h92⟩, hrest⟩ := h2
  exact ⟨h34, h10, h92, by omega, hrest⟩

theorem unqLoop_clean_err (u : GoStr) (rest : GoStr)
    (hu : asciiClean u = true) (hbad : unquoteChar (92 :: rest) = none) :
    ∀ fuel, unqLoop fuel (u ++ 92 :: rest) = none := by
  induction u with
  | nil =>
    intro fuel
    cases fuel with
    | zero => rfl
    | succ n =>
      show unqLoop (n + 1) (92 :: rest) = none
      simp only [unqLoop]
      rw [if_neg (by decide), if_neg (by decide), hbad]
  | cons c u ih =>
    intro fuel
    obtain ⟨h34, h10, h92, hge, hrest⟩ := asciiClean_cons c u hu
    cases fuel with
    | zero => rfl
    | succ n =>
      have huc : unquoteChar (c :: (u ++ 92 :: rest)) = some ([c], u ++ 92 :: rest) := by
        simp only [unquoteChar]
        rw [if_neg h34, if_neg hge, if_pos h92]
      show unqLoop (n + 1) (c :: (u ++ 92 :: rest)) = none
      simp only [unqLoop]
      rw [if_neg h34, if_neg h10, huc]
      show (match unqLoop n (u ++ 92 :: rest) with
            | none => none
            | some out => some ([c] ++ out)) = none
      rw [ih hrest n]

theorem takeWhile_clean_append (u : GoStr) (x : GoStr) (hu : asciiClean u = true) :
    (u ++ 92 :: x).takeWhile (fun b => b != 34) =
      u ++ 92 :: (x.takeWhile (fun b => b != 34)) := by
  induction u with
  | nil => simp [List.takeWhile_cons]
  | cons c u ih =>
    obtain ⟨h34, h10, h92, hge, hrest⟩ := asciiClean_cons c u hu
    have hc : (c != 34) = true := by simp [h34]
    simp only [List.cons_append, List.takeWhile_cons, hc, if_true]
    rw [ih hrest]

/-- C9: filename decoding fails soft and cannot abort the parse.  First,
for any token made of clean ASCII bytes followed by a backslash escape
that `UnquoteChar` rejects, `decodeOctalString` returns the token
unchanged.  Second, every file-header name line (`--- `, `+++ `,
`rename from `, `rename to `) processed with a current file present makes
the loop iteration succeed — name decoding never produces an error. -/
theorem c9_decode_fail_soft (u r2 : GoStr) (hu : asciiClean u = true)
    (hbad : unquoteChar (92 :: (r2 ++ [34])) = none) :
    decodeOctalString (u ++ 92 :: r2) = u ++ 92 :: r2 ∧
    (∀ (l : GoStr) (rest : List GoStr) (st : ParseState) (f : DiffFile),
      st.cur = some f →
      (bytesHasPre (gs "--- ") l = true ∨ bytesHasPre (gs "+++ ") l = true ∨
        bytesHasPre (gs "rename from ") l = true ∨
        bytesHasPre (gs "rename to ") l = true) →
      (stepLine l rest st).isOk = true) := by
  constructor
  · have hw : (u ++ 92 :: r2) ++ [34] = u ++ 92 :: (r2 ++ [34]) := by simp
    have hpre : ((u ++ 92 :: r2) ++ [34]).takeWhile (fun b => b != 34) =
        u ++ 92 :: ((r2 ++ [34]).takeWhile (fun b => b != 34)) := by
      rw [hw]; exact takeWhile_clean_append u _ hu
    have hcont : (((u ++ 92 :: r2) ++ [34]).takeWhile (fun b => b != 34)).contains 92 = true := by
      rw [hpre]
      simp
    have hnone : goUnquoteD (u ++ 92 :: r2) = none := by
      rw [goUnquoteD]
      have hguard : (!(((u ++ 92 :: r2) ++ [34]).takeWhile (fun b => b != 34)).contains 92 &&
          !(((u ++ 92 :: r2) ++ [34]).takeWhile (fun b => b != 34)).contains 10 &&
          validUtf8 (((u ++ 92 :: r2) ++ [34]).takeWhile (fun b => b != 34))) = false := by
        rw [hcont]
        simp
      rw [if_neg (bfalse hguard), hw]
      exact unqLoop_clean_err u _ hu hbad _
    rw [decodeOctalString, hnone]
  · intro l rest st f hcur hpre
    rcases hpre with hp5 | hp6 | hp7 | hp8
    · obtain ⟨t, hl⟩ := (hasPre_iff _ _).mp hp5
      subst hl
      have hl2 : gs "--- " ++ t = 45 :: (gs "-- " ++ t) := rfl
      rw [hl2]
      have h1 : bytesHasPre (gs "diff ") (45 :: (gs "-- " ++ t)) = false := rfl
      have h2 : (45 :: (gs "-- " ++ t)) ≠ gs "+++ /dev/null" := by
        rw [gsPlusDev]; exact cons_ne_cons_of_head _ _ _ _ (by decide)
      by_cases hdev : (45 :: (gs "-- " ++ t)) = gs "--- /dev/null"
      · rw [stepLine_eq_minusDev _ rest st h1 h2 hdev, hcur]; rfl
      · have h4 : bytesHasPre (gs "similarity index ") (45 :: (gs "-- " ++ t)) = false := rfl
        have h5 : bytesHasPre (gs "--- ") (45 :: (gs "-- " ++ t)) = true := by
          rw [← hl2]; exact (hasPre_iff _ _).mpr ⟨t, rfl⟩
        rw [stepLine_eq_orig _ rest st h1 h2 hdev h4 h5, hcur]; rfl
    · obtain ⟨t, hl⟩ := (hasPre_iff _ _).mp hp6
      subst hl
      have hl2 : gs "+++ " ++ t = 43 :: (gs "++ " ++ t) := rfl
      rw [hl2]
      have h1 : bytesHasPre (gs "diff ") (43 :: (gs "++ " ++ t)) = false := rfl
      by_cases hdev : (43 :: (gs "++ " ++ t)) = gs "+++ /dev/null"
      · rw [stepLine_eq_plusDev _ rest st h1 hdev, hcur]; rfl
      · have h3 : (43 :: (gs "++ " ++ t)) ≠ gs "--- /dev/null" := by
          rw [gsMinusDev]; exact cons_ne_cons_of_head _ _ _ _ (by decide)
        have h4 : bytesHasPre (gs "similarity index ") (43 :: (gs "++ " ++ t)) = false := rfl
        have h5 : bytesHasPre (gs "--- ") (43 :: (gs "++ " ++ t)) = false := rfl
        have h6 : bytesHasPre (gs "+++ ") (43 :: (gs "++ " ++ t)) = true := by
          rw [← hl2]; exact (hasPre_iff _ _).mpr ⟨t, rfl⟩
        rw [stepLine_eq_new _ rest st h1 hdev h3 h4 h5 h6, hcur]; rfl
    · obtain ⟨t, hl⟩ := (hasPre_iff _ _).mp hp7
      subst hl
      have hl2 : gs "rename from " ++ t = 114 :: (gs "ename from " ++ t) := rfl
      rw [hl2]
      have h1 : bytesHasPre (gs "diff ") (114 :: (gs "ename from " ++ t)) = false := rfl
      have h2 : (114 :: (gs "ename from " ++ t)) ≠ gs "+++ /dev/null" := by
        rw [gsPlusDev]; exact cons_ne_cons_of_head _ _ _ _ (by decide)
      have h3 : (114 :: (gs "ename from " ++ t)) ≠ gs "--- /dev/null" := by
        rw [gsMinusDev]; exact cons_ne_cons_of_head _ _ _ _ (by decide)
      have h4 : bytesHasPre (gs "similarity index ") (114 :: (gs "ename from " ++ t)) = false := rfl
      have h5 : bytesHasPre (gs "--- ") (114 :: (gs "ename from " ++ t)) = false := rfl
      have h6 : bytesHasPre (gs "+++ ") (114 :: (gs "ename from " ++ t)) = false := rfl
      have h7 : bytesHasPre (gs "rename from ") (114 :: (gs "ename from " ++ t)) = true := by
        rw [← hl2]; exact (hasPre_iff _ _).mpr ⟨t, rfl⟩
      rw [stepLine_eq_renFrom _ rest st h1 h2 h3 h4 h5 h6 h7, hcur]; rfl
    · obtain ⟨t, hl⟩ := (hasPre_iff _ _).mp hp8
      subst hl
      have hl2 : gs "rename to " ++ t = 114 :: (gs "ename to " ++ t) := rfl
      rw [hl2]
      have h1 : bytesHasPre (gs "diff ") (114 :: (gs "ename to " ++ t)) = false := rfl
      have h2 : (114 :: (gs "ename to " ++ t)) ≠ gs "+++ /dev/null" := by
        rw [gsPlusDev]; exact cons_ne_cons_of_head _ _ _ _ (by decide)
      have h3 : (114 :: (gs "ename to " ++ t)) ≠ gs "--- /dev/null" := by
        rw [gsMinusDev]; exact cons_ne_cons_of_head _ _ _ _ (by decide)
      have h4 : bytesHasPre (gs "similarity index ") (114 :: (gs "ename to " ++ t)) = false := rfl
      have h5 : bytesHasPre (gs "--- ") (114 :: (gs "ename to " ++ t)) = false := rfl
      have h6 : bytesHasPre (gs "+++ ") (114 :: (gs "ename to " ++ t)) = false := rfl
      have h7 : bytesHasPre (gs "rename from ") (114 :: (gs "ename to " ++ t)) = false := rfl
      have h8 : bytesHasPre (gs "rename to ") (114 :: (gs "ename to " ++ t)) = true := by
        rw [← hl2]; exact (hasPre_iff _ _).mpr ⟨t, rfl⟩
      rw [stepLine_eq_renTo _ rest st h1 h2 h3 h4 h5 h6 h7 h8, hcur]; rfl

/-- C9 witness: the token `a\8b` has a malformed octal escape (`8` is not
an octal digit) and is returned unchanged by the decoder, and a `--- `
name line with a current file present steps successfully. -/
theorem c9_witness :
    asciiClean (gs "a") = true ∧
    unquoteChar (92 :: (gs "8b" ++ [34])) = none ∧
    decodeOctalString (gs "a" ++ 92 :: gs "8b") = gs "a" ++ 92 :: gs "8b" ∧
    (stepLine (gs "--- oops") [] { initState with cur := some defFile }).isOk = true := by
  obtain ⟨h1, h2⟩ := c9_decode_fail_soft (gs "a") (gs "8b") (by decide) (by decide)
  exact ⟨by decide, by decide, h1,
    h2 (gs "--- oops") [] { initState with cur := some defFile } defFile rfl
      (Or.inl (by decide))⟩

end Diffparser
